import Mathlib

/-!
Verification of the "now you know me" game backend.

The development shallowly embeds the code of `src/routes.js`,
`src/socketHandlers.js` and `src/index.js`: Mongo documents become Lean
structures, the document store becomes an explicit list of documents in
document order, each handler becomes a function from the store (plus its
request parameters) to a response together with the updated store, and the
single-document Mongo operations (`findOne`, `findOneAndUpdate`,
`findByIdAndUpdate`) become first-match lookups and first-match in-place
updates on that list.  Wall-clock instants (`Date.now()`, `new Date()`) are
passed in as explicit `Nat` parameters.
-/

namespace NYKM

/-- Match subdocument embedded in a player document.  The repository writes
two schemas: the HTTP match route (routes.js 410-417) writes the key
`playerId`, while the socket handler (socketHandlers.js 225-232) writes the
key `matchedWith`.  A stored entry carries whichever key was written; the
other is absent (`none`). -/
structure MatchEntry where
  playerId : Option String := none
  matchedWith : Option String := none
  matchedAt : Option Nat := none
  selfieUrl : Option String := none
  playerName : String := ""
deriving DecidableEq

/-- A player document (collection `players`).  Counter fields default to 0
and flags to their Mongo defaults, matching a freshly created document.
The source field `matches` is embedded as `matchList` (the word is reserved
in Lean). -/
structure Player where
  id : String := ""
  sessionId : String := ""
  name : String := ""
  socketId : Option String := none
  score : Int := 0
  status : String := "connected"
  hasProfile : Bool := false
  profile : Option String := none
  matchList : List MatchEntry := []
  peopleKnown : Nat := 0
  peopleWhoKnowYou : Nat := 0
  wrongGuesses : Nat := 0
  timesAssigned : Nat := 0
  lastMatchAt : Option Nat := none
  completedAt : Option Nat := none
  isCompleted : Bool := false
deriving DecidableEq

/-- A session document (collection `sessions`); only the fields the embedded
handlers read. -/
structure Session where
  sessionId : String := ""
  status : String := "waiting"
deriving DecidableEq

/-- The state store: both collections, in document order. -/
structure Store where
  sessions : List Session := []
  players : List Player := []
deriving DecidableEq

/-- Mongo `findOneAndUpdate` / `findByIdAndUpdate` without a sort option:
update the first document matching the filter, in place; no-op when no
document matches. -/
def updateFirst (pred : Player → Bool) (f : Player → Player) : List Player → List Player
  | [] => []
  | p :: ps => if pred p then f p :: ps else p :: updateFirst pred f ps

/-- Update the document at a given position, in place. -/
def updateAtIdx (i : Nat) (f : Player → Player) : List Player → List Player
  | [] => []
  | p :: ps =>
    match i with
    | 0 => f p :: ps
    | j + 1 => p :: updateAtIdx j f ps

/-- Mongo ascending comparison on a possibly-missing timestamp field: a
missing value sorts before every present value. -/
def mongoTimeLe : Option Nat → Option Nat → Bool
  | none, _ => true
  | some _, none => false
  | some a, some b => a ≤ b

/-- The sort key of `Player.find(..).sort(score: -1, lastMatchAt: 1)`
(routes.js 17, 25): score descending, then lastMatchAt ascending (a missing
time first). -/
def LbOrdered (a b : Player) : Prop :=
  b.score < a.score ∨ (a.score = b.score ∧ mongoTimeLe a.lastMatchAt b.lastMatchAt = true)

instance (a b : Player) : Decidable (LbOrdered a b) :=
  inferInstanceAs (Decidable
    (b.score < a.score ∨ (a.score = b.score ∧ mongoTimeLe a.lastMatchAt b.lastMatchAt = true)))

/-- The comparator of socketHandlers.js 254, `(a, b) => b.score - a.score`:
score descending only. -/
def ScoreDesc (a b : Player) : Prop :=
  b.score ≤ a.score

instance (a b : Player) : Decidable (ScoreDesc a b) :=
  inferInstanceAs (Decidable (b.score ≤ a.score))

instance : IsTotal Player LbOrdered := by
  constructor
  intro a b
  by_cases h : a.score = b.score
  · by_cases hm : mongoTimeLe a.lastMatchAt b.lastMatchAt = true
    · exact Or.inl (Or.inr ⟨h, hm⟩)
    · refine Or.inr (Or.inr ⟨h.symm, ?_⟩)
      cases hx : a.lastMatchAt with
      | none => rw [hx] at hm; simp [mongoTimeLe] at hm
      | some na =>
        cases hy : b.lastMatchAt with
        | none => simp [mongoTimeLe]
        | some nb =>
          rw [hx, hy] at hm
          simp only [mongoTimeLe] at hm ⊢
          simp only [decide_eq_true_eq] at *
          omega
  · rcases lt_or_gt_of_ne h with h2 | h2
    · exact Or.inr (Or.inl h2)
    · exact Or.inl (Or.inl h2)

instance : IsTrans Player LbOrdered := by
  constructor
  intro a b c hab hbc
  rcases hab with h1 | ⟨he1, hm1⟩
  · rcases hbc with h2 | ⟨he2, hm2⟩
    · exact Or.inl (lt_trans h2 h1)
    · exact Or.inl (he2 ▸ h1)
  · rcases hbc with h2 | ⟨he2, hm2⟩
    · exact Or.inl (by rw [he1]; exact h2)
    · refine Or.inr ⟨he1.trans he2, ?_⟩
      cases hx : a.lastMatchAt with
      | none => simp [mongoTimeLe]
      | some na =>
        rw [hx] at hm1
        cases hy : b.lastMatchAt with
        | none => rw [hy] at hm1; simp [mongoTimeLe] at hm1
        | some nb =>
          rw [hy] at hm1
          rw [hy] at hm2
          cases hz : c.lastMatchAt with
          | none => rw [hz] at hm2; simp [mongoTimeLe] at hm2
          | some nc =>
            rw [hz] at hm2
            simp only [mongoTimeLe, decide_eq_true_eq] at *
            omega

instance : IsTotal Player ScoreDesc :=
  ⟨fun a b => Int.le_total b.score a.score⟩

instance : IsTrans Player ScoreDesc :=
  ⟨fun _ _ _ h1 h2 => le_trans h2 h1⟩

/-- The query run by every throttled leaderboard emission (routes.js 17 and
25): the session's players sorted by score descending then lastMatchAt
ascending.  A stable sort in document order models the store's
deterministic tie order; `List.insertionSort` is stable. -/
def leaderboardQuery (db : List Player) (sid : String) : List Player :=
  List.insertionSort LbOrdered (db.filter (fun p => p.sessionId == sid))

/-- The leaderboard built by `handleConfirmMatch` (socketHandlers.js
253-254): all the session's players, sorted by score descending only;
JavaScript `Array.prototype.sort` is stable, so equal scores keep document
order, which `List.insertionSort` reproduces. -/
def socketLeaderboard (db : List Player) (sid : String) : List Player :=
  List.insertionSort ScoreDesc (db.filter (fun p => p.sessionId == sid))

/-- Events a socket handler emits (to the caller or to the session room). -/
inductive SEvent where
  | errorMsg (msg : String)
  | matchFound (finderName foundName : String) (points : Nat)
  | scoreUpdated (playerSocketId : Option String) (newScore : Int)
  | leaderboardUpdated (players : List Player)
  | gameState (sessionStatus : String) (players : List Player) (current : Player)
  | playerJoined (p : Player)
  | profileAssigned (profile : Option String) (playerId : String)
  | noMoreProfiles
deriving DecidableEq

/-- socketHandlers.js 206-260, `handleConfirmMatch`.  Finder is looked up by
socket id, found player by document id; if either is absent an error is
emitted and nothing changes.  Otherwise ONE update writes the finder's new
score (`(score || 0) + 100`, embedded as `score + 100`), appends a `matches`
entry keyed `matchedWith` — with no duplicate guard of any kind — and
increments `peopleKnown`; a second update increments the found player's
`peopleWhoKnowYou`.  The handler then emits `matchFound`, `scoreUpdated`,
and a leaderboard sorted by score only. -/
def handleConfirmMatch (st : Store) (finder : String) (foundPlayerId : String)
    (selfieUrl : Option String) (now : Nat) : List SEvent × Store :=
  match st.players.find? (fun p => p.socketId == some finder),
        st.players.find? (fun p => p.id == foundPlayerId) with
  | some finderPlayer, some foundPlayer =>
    let newFinderScore := finderPlayer.score + 100
    let entry : MatchEntry :=
      { matchedWith := some foundPlayer.id
        matchedAt := some now
        selfieUrl := selfieUrl
        playerName := foundPlayer.name }
    let players1 := updateFirst (fun p => p.socketId == some finder)
      (fun p => { p with
                  score := newFinderScore
                  matchList := p.matchList ++ [entry]
                  peopleKnown := p.peopleKnown + 1 }) st.players
    let players2 := updateFirst (fun p => p.id == foundPlayer.id)
      (fun p => { p with peopleWhoKnowYou := p.peopleWhoKnowYou + 1 }) players1
    let st2 : Store := { st with players := players2 }
    ([SEvent.matchFound finderPlayer.name foundPlayer.name 100,
      SEvent.scoreUpdated finderPlayer.socketId newFinderScore,
      SEvent.leaderboardUpdated (socketLeaderboard st2.players finderPlayer.sessionId)],
     st2)
  | _, _ => ([SEvent.errorMsg ("One or both players not found")], st)

/-- socketHandlers.js 168-204, `handleGetNewProfile`.  The eligible
candidates are the session's players with a profile, excluding the caller's
socket and the ids already recorded under `matchedWith`; the handler then
picks `players[Math.floor(Math.random() * players.length)]` — the value of
`Math.floor(Math.random() * length)` is passed in as `randIndex` — and
emits the pick WITHOUT updating any document (no `timesAssigned`
increment). -/
def handleGetNewProfile (st : Store) (socketId : String) (sessionId : String)
    (randIndex : Nat) : List SEvent × Store :=
  match st.players.find? (fun p => p.socketId == some socketId && p.sessionId == sessionId) with
  | none => ([SEvent.errorMsg ("Player not found")], st)
  | some currentPlayer =>
    let cands := st.players.filter (fun p =>
      p.sessionId == sessionId && p.hasProfile && !(p.socketId == some socketId) &&
      !((currentPlayer.matchList.map (fun m => m.matchedWith)).contains (some p.id)))
    match cands with
    | [] => ([SEvent.noMoreProfiles], st)
    | c :: cs =>
      let playerToFind := (c :: cs).getD randIndex c
      ([SEvent.profileAssigned playerToFind.profile playerToFind.id], st)

/-- socketHandlers.js 16-91, `handleJoinGame`.  `newId` is the document id
Mongo would assign to a newly created player.  Note the order of the
checks: the `ended` test is made BEFORE the reconnect branch, so an ended
session rejects even a reconnection with a valid prior player id; the
`playing` test is only in the create-new branch. -/
def handleJoinGame (st : Store) (socketId : String) (name : String) (sessionId : String)
    (playerId : Option String) (newId : String) : List SEvent × Store :=
  match st.sessions.find? (fun s => s.sessionId == sessionId) with
  | none => ([SEvent.errorMsg ("Session not found")], st)
  | some session =>
    if session.status == "ended" then
      ([SEvent.errorMsg ("This session has already ended.")], st)
    else
      let reconnect? : Option Player := match playerId with
        | some pid => st.players.find? (fun p => p.id == pid && p.sessionId == sessionId)
        | none => none
      match reconnect? with
      | some player0 =>
        let player1 := { player0 with socketId := some socketId, status := "connected" }
        let players1 := updateFirst (fun p => p.id == player0.id && p.sessionId == sessionId)
          (fun p => { p with socketId := some socketId, status := "connected" }) st.players
        let st1 : Store := { st with players := players1 }
        let allPlayers := st1.players.filter (fun p => p.sessionId == sessionId)
        ([SEvent.gameState session.status allPlayers player1, SEvent.playerJoined player1], st1)
      | none =>
        if playerId.isSome &&
            (st.players.any (fun p => p.name == name && p.sessionId == sessionId)) then
          ([SEvent.errorMsg ("A player with this name already exists.")], st)
        else if session.status == "playing" then
          ([SEvent.errorMsg ("This session is already in progress and cannot be joined.")], st)
        else
          let player1 : Player :=
            { id := newId
              socketId := some socketId
              name := name
              sessionId := sessionId
              score := 0
              status := "connected"
              hasProfile := false }
          let st1 : Store := { st with players := st.players ++ [player1] }
          let allPlayers := st1.players.filter (fun p => p.sessionId == sessionId)
          ([SEvent.gameState session.status allPlayers player1, SEvent.playerJoined player1], st1)

/-- Response of the HTTP new-profile route (routes.js 495-572). -/
inductive ProfileResp where
  | notFound (msg : String)
  | allFound
  | assigned (profile : Option String) (playerId : String) (playerName : String)
deriving DecidableEq

/-- JavaScript truthiness of the optional `skip` query parameter
(routes.js 518, 538): absent and the empty string are falsy. -/
def truthy : Option String → Bool
  | some s => !(s == "")
  | none => false

/-- The filter of the two `findOneAndUpdate` calls at routes.js 524-531 and
541-548: same session, not the requester, not in the exclusion list, has a
profile.  The exclusion list is `matches.map(m => m.playerId)` (entries
written by the socket handler carry no `playerId` and exclude nobody),
optionally extended by the skip id. -/
def npEligible (sessionId playerId : String) (excl : List (Option String)) (p : Player) : Bool :=
  p.sessionId == sessionId && !(p.id == playerId) && !(excl.contains (some p.id)) && p.hasProfile

/-- Mongo `findOneAndUpdate` with `sort: (timesAssigned: 1)`: the position
and value of the first document, in document order, among those matching the
filter that have the minimal `timesAssigned`. -/
def pickMinAssigned (pred : Player → Bool) : List Player → Option (Nat × Player)
  | [] => none
  | p :: ps =>
    match pickMinAssigned pred ps with
    | none => if pred p then some (0, p) else none
    | some (j, q) =>
      if pred p then
        if p.timesAssigned ≤ q.timesAssigned then some (0, p) else some (j + 1, q)
      else some (j + 1, q)

/-- The `$inc: (timesAssigned: 1)` update document of routes.js 532/549. -/
def incAssigned (p : Player) : Player :=
  { p with timesAssigned := p.timesAssigned + 1 }

/-- routes.js 514: `(currentPlayer.matches || []).map(m => m.playerId)`. -/
def matchedOf (p : Player) : List (Option String) :=
  p.matchList.map (fun m => m.playerId)

/-- routes.js 517-520: the exclusion list of the first pass — the matched
ids, plus the skip id when it is truthy. -/
def exclusionOf (currentPlayer : Player) (skip : Option String) : List (Option String) :=
  match skip with
  | some s => if s == "" then matchedOf currentPlayer else matchedOf currentPlayer ++ [some s]
  | none => matchedOf currentPlayer

/-- routes.js 495-572, GET `/sessions/:sessionId/player/:playerId/new-profile`
(the Assignment Engine).  Load the requester; build the exclusion list from
the recorded `matches[].playerId` values plus the truthy skip id; atomically
select-and-increment the eligible player with the lowest `timesAssigned`
(`new: true`, so the assigned snapshot is the post-increment document); if
nothing matched and a skip was supplied, retry once without the skip id
(matched ids still excluded); if still nothing, answer 200 with
`ALL_PLAYERS_FOUND` (not an error). -/
def newProfileRoute (st : Store) (sessionId playerId : String) (skip : Option String) :
    ProfileResp × Store :=
  match st.players.find? (fun p => p.id == playerId) with
  | none => (ProfileResp.notFound ("Player not found"), st)
  | some currentPlayer =>
    let pass1 :=
      pickMinAssigned (npEligible sessionId playerId (exclusionOf currentPlayer skip)) st.players
    let result : Option (Nat × Player) :=
      match pass1 with
      | some r => some r
      | none =>
        if truthy skip then
          pickMinAssigned (npEligible sessionId playerId (matchedOf currentPlayer)) st.players
        else none
    match result with
    | none => (ProfileResp.allFound, st)
    | some (i, c) =>
      let c1 := incAssigned c
      (ProfileResp.assigned c1.profile c1.id c1.name,
       { st with players := updateAtIdx i incAssigned st.players })

/-- Response of an HTTP route, reduced to what the match routes answer. -/
inductive HttpResp where
  | notFound (msg : String)
  | badRequest (msg : String)
  | serverError (msg : String)
  | okMatch (isCompleted : Bool) (totalMatches totalRequired : Nat)
  | okMsg (msg : String)
deriving DecidableEq

/-- The identifiers in scope inside the handler of POST
`/sessions/:sessionId/match` at the point where the update document of
`Player.findOneAndUpdate` (routes.js 408-419) is evaluated: the module-level
bindings of routes.js plus the handler's own bindings up to line 403. -/
def matchRouteScope : List String :=
  ["archiver", "express", "Connection", "Player", "Session", "router",
   "sessionUpdateTimers", "THROTTLE_INTERVAL", "emitLeaderboardUpdate",
   "req", "res", "sessionId", "finderId", "foundPlayerId", "selfieUrl",
   "session", "finderPlayer"]

/-- The free identifiers referenced by that update document: `matchTime`
(routes.js 413 and 418) and `foundPlayer` (routes.js 415).  Neither is
declared anywhere in routes.js. -/
def matchRouteFreeIdents : List String := ["matchTime", "foundPlayer"]

/-- routes.js 392-473, POST `/sessions/:sessionId/match`.  After the session
lookup succeeds, the handler evaluates the update-document argument of
`Player.findOneAndUpdate` (routes.js 403-421); evaluating it resolves the
identifiers `matchTime` and `foundPlayer`, which are not in scope, so
JavaScript throws a ReferenceError BEFORE the store call is made.  The
throw is caught at routes.js 469-471, which answers 500 "Failed to confirm
match".  Consequently the guarded insert, the found-player `$inc`
(routes.js 430-432), the completion check (routes.js 435-453) and the
success response (routes.js 455-464) never execute and no document is
written.  The `okMatch` branch below is therefore unreachable (the scope
test is decidably false); it stands in for the response the code would
build at routes.js 455-464. -/
def confirmMatchRoute (st : Store) (sessionId finderId foundPlayerId : String) :
    HttpResp × Store :=
  match st.sessions.find? (fun s => s.sessionId == sessionId) with
  | none => (HttpResp.notFound ("Session not found"), st)
  | some _ =>
    if matchRouteFreeIdents.all (fun x => matchRouteScope.contains x) then
      (HttpResp.okMatch false 0 0, st)
    else
      (HttpResp.serverError ("Failed to confirm match"), st)

/-- routes.js 475-493, POST `/sessions/:sessionId/wrong-match`:
`findByIdAndUpdate(finderId, $inc: (score: -10, wrongGuesses: 1))`, then a
200 response; a missing finder makes the update a no-op. -/
def wrongMatchRoute (st : Store) (finderId : String) : HttpResp × Store :=
  let players1 := updateFirst (fun p => p.id == finderId)
    (fun p => { p with
                score := p.score - 10
                wrongGuesses := p.wrongGuesses + 1 }) st.players
  (HttpResp.okMsg ("Score updated successfully"), { st with players := players1 })

/-- The score-affecting operations reachable from a client, used for the
round-trip accounting of the claimed scoring law: a socket match
confirmation, an HTTP wrong-match report, and an HTTP match confirmation
attempt. -/
inductive GameOp where
  | socketConfirm (finderSocket foundPlayerId : String) (selfieUrl : Option String) (now : Nat)
  | wrongGuess (finderId : String)
  | httpConfirm (sessionId finderId foundPlayerId : String)
deriving DecidableEq

/-- Apply one operation to the store. -/
def applyOp (st : Store) : GameOp → Store
  | GameOp.socketConfirm s fid sel now => (handleConfirmMatch st s fid sel now).2
  | GameOp.wrongGuess fid => (wrongMatchRoute st fid).2
  | GameOp.httpConfirm sid fid bid => (confirmMatchRoute st sid fid bid).2

/-- Apply a sequence of operations, left to right. -/
def runOps (st : Store) : List GameOp → Store
  | [] => st
  | op :: ops => runOps (applyOp st op) ops

/-- Number of match confirmations issued by the player on socket `sock`. -/
def confirmsBy (sock : String) (ops : List GameOp) : Nat :=
  ops.countP (fun op => match op with
    | GameOp.socketConfirm s _ _ _ => s == sock
    | _ => false)

/-- Number of wrong-match reports filed against player id `pid`. -/
def wrongsOn (pid : String) (ops : List GameOp) : Nat :=
  ops.countP (fun op => match op with
    | GameOp.wrongGuess f => f == pid
    | _ => false)

/-- The found-player ids of the confirmations issued on socket `sock`, in
order. -/
def confirmTargets (sock : String) (ops : List GameOp) : List String :=
  ops.filterMap (fun op => match op with
    | GameOp.socketConfirm s fid _ _ => if s == sock then some fid else none
    | _ => none)

/-- The change one operation makes to the score of the player with socket
`sock` and id `pid`: +100 when that player confirms, −10 when a wrong match
is filed against them, 0 otherwise (the HTTP confirmation never changes any
score — see the C10 theorem). -/
def opScoreDelta (sock pid : String) : GameOp → Int
  | GameOp.socketConfirm s _ _ _ => if s == sock then 100 else 0
  | GameOp.wrongGuess f => if f == pid then -10 else 0
  | GameOp.httpConfirm _ _ _ => 0

/-- Position of the first document matching a filter. -/
def firstIdx (pred : Player → Bool) : List Player → Option Nat
  | [] => none
  | p :: ps => if pred p then some 0 else (firstIdx pred ps).map (fun j => j + 1)

/-- A value stored in the `sessionUpdateTimers` map (routes.js 8): a
last-emission timestamp (a number) under the key `sessionId`, or the boolean
`true` under the key `sessionId + "_scheduled"`. -/
inductive TVal where
  | ts (n : Nat)
  | flag
deriving DecidableEq

/-- The `sessionUpdateTimers` JavaScript Map, as an association list in
insertion order. -/
abbrev TimerMap := List (String × TVal)

/-- `Map.prototype.get`. -/
def tmGet (m : TimerMap) (k : String) : Option TVal :=
  (m.find? (fun e => e.1 == k)).map (fun e => e.2)

/-- `Map.prototype.set`: overwrite the entry in place, or append a new one
(map keys are unique). -/
def tmSet (m : TimerMap) (k : String) (v : TVal) : TimerMap :=
  match m with
  | [] => [(k, v)]
  | e :: rest => if e.1 == k then (k, v) :: rest else e :: tmSet rest k v

/-- `Map.prototype.delete`: remove the entry with the given key. -/
def tmDelete (m : TimerMap) (k : String) : TimerMap :=
  match m with
  | [] => []
  | e :: rest => if e.1 == k then rest else e :: tmDelete rest k

/-- `sessionUpdateTimers.get(sessionId) || 0` (routes.js 13), including the
JavaScript coercion of a stored boolean `true` to 1 in the subtraction at
routes.js 15. -/
def tmGetNum (m : TimerMap) (k : String) : Nat :=
  match tmGet m k with
  | some (TVal.ts n) => n
  | some TVal.flag => 1
  | none => 0

/-- The flag key `sessionId + "_scheduled"` (routes.js 22-23, 28). -/
def schedKey (sid : String) : String := sid ++ "_scheduled"

/-- routes.js 9. -/
def THROTTLE_INTERVAL : Nat := 5000

/-- A recorded `updateLeaderboard` emission: session room, instant, and the
payload queried at that instant. -/
structure Emission where
  sid : String
  time : Nat
  payload : List Player
deriving DecidableEq

/-- One step of the throttler's life: either a state-changing request calls
`emitLeaderboardUpdate(req, sid)` at instant `time` (a trigger), or a
`setTimeout` callback scheduled at routes.js 24-29 runs (a fire).  `db` is
the content of the players collection at that instant — the queries at
routes.js 17 and 25 read it then. -/
structure TEvent where
  isFire : Bool
  sid : String
  time : Nat
  db : List Player
deriving DecidableEq

/-- The throttler state: the timers map, the pending `setTimeout` callbacks
(session and absolute due instant), the emissions so far, and the current
instant. -/
structure TState where
  timers : TimerMap := []
  agenda : List (String × Nat) := []
  emissions : List Emission := []
  clock : Nat := 0
deriving DecidableEq

/-- The empty initial throttler state (a fresh process). -/
def tInit : TState := {}

/-- One transition of the throttler, the body of `emitLeaderboardUpdate`
(routes.js 11-32).  Trigger: if at least `THROTTLE_INTERVAL` elapsed since
the recorded last emission, emit immediately and record the instant; else,
if `has(sid + "_scheduled")` is false, set the flag and schedule a callback
at `now + (THROTTLE_INTERVAL - (now - last))`; else do nothing (the event is
absorbed).  Fire (the routes.js 24-29 callback): emit from a fresh query,
record the instant, delete the flag, and leave the schedule. -/
def tStep (s : TState) (e : TEvent) : TState :=
  if e.isFire then
    { timers := tmDelete (tmSet s.timers e.sid (TVal.ts e.time)) (schedKey e.sid)
      agenda := s.agenda.eraseP (fun x => x.1 == e.sid && x.2 == e.time)
      emissions := s.emissions ++ [⟨e.sid, e.time, leaderboardQuery e.db e.sid⟩]
      clock := e.time }
  else
    let last := tmGetNum s.timers e.sid
    if THROTTLE_INTERVAL ≤ e.time - last then
      { s with
        emissions := s.emissions ++ [⟨e.sid, e.time, leaderboardQuery e.db e.sid⟩]
        timers := tmSet s.timers e.sid (TVal.ts e.time)
        clock := e.time }
    else if (tmGet s.timers (schedKey e.sid)).isSome then
      { s with clock := e.time }
    else
      { s with
        timers := tmSet s.timers (schedKey e.sid) TVal.flag
        agenda := s.agenda ++ [(e.sid, e.time + (THROTTLE_INTERVAL - (e.time - last)))]
        clock := e.time }

/-- Whether an event may happen next in state `s`.  Time is monotone; a
fire corresponds to a pending scheduled callback and happens exactly at its
due instant (`setTimeout` callbacks are modelled as punctual); a due
callback runs before any trigger at the same or a later instant, so a
trigger happens strictly before every pending due instant. -/
def validEvent (s : TState) (e : TEvent) : Bool :=
  s.clock ≤ e.time &&
  (if e.isFire then
     s.agenda.contains (e.sid, e.time) && s.agenda.all (fun x => e.time ≤ x.2)
   else
     s.agenda.all (fun x => e.time < x.2))

/-- Run the throttler over an event list. -/
def tRun (s : TState) : List TEvent → TState
  | [] => s
  | e :: es => tRun (tStep s e) es

/-- The whole event list is a valid schedule from state `s`. -/
def tValid (s : TState) : List TEvent → Bool
  | [] => true
  | e :: es => validEvent s e && tValid (tStep s e) es

/-- Sessions whose identifiers interact with `sid` in the shared timers map:
`noClash sid evs` says no event concerns a session named `sid +
"_scheduled"`, and `sid` itself is not some other session's flag key. -/
def noClash (sid : String) (evs : List TEvent) : Bool :=
  evs.all (fun e => e.sid == sid || (!(e.sid == schedKey sid) && !(sid == schedKey e.sid)))

/-- The pending scheduled callbacks of one session. -/
def agendaFor (sid : String) (s : TState) : List (String × Nat) :=
  s.agenda.filter (fun x => x.1 == sid)

/-- The emissions of one session, in order. -/
def emissionsFor (sid : String) (s : TState) : List Emission :=
  s.emissions.filter (fun em => em.sid == sid)

/-- Run invariant of the throttler for one session `sid` (assuming no
key collision with `sid` in the trace): the recorded last-emission number
never exceeds the clock; every past emission for `sid` happened no later
than the recorded number; emissions for `sid` are at least
`THROTTLE_INTERVAL` apart; the scheduled flag is set exactly when one
callback is pending, due at last + interval; no pending callback is
overdue; and the timers map has no duplicate keys. -/
def TInv (sid : String) (s : TState) : Prop :=
  tmGetNum s.timers sid ≤ s.clock ∧
  (∀ em ∈ emissionsFor sid s, em.time ≤ tmGetNum s.timers sid) ∧
  List.Pairwise (fun a b => a.time + THROTTLE_INTERVAL ≤ b.time) (emissionsFor sid s) ∧
  (if (tmGet s.timers (schedKey sid)).isSome then
     agendaFor sid s = [(sid, tmGetNum s.timers sid + THROTTLE_INTERVAL)]
   else agendaFor sid s = []) ∧
  (∀ x ∈ s.agenda, s.clock ≤ x.2) ∧
  (s.timers.map Prod.fst).Nodup

/-! Concrete fixtures used by the closed theorems and witnesses below. -/

/-- A playing two-player session: finder "f" (socket "sf") and found player
"b", both profiled, neither matched yet. -/
def cPlayerF : Player :=
  { id := "f"
    sessionId := "s1"
    name := "Faye"
    socketId := some ("sf")
    hasProfile := true
    profile := some ("pf") }

/-- The player to be found in session "s1". -/
def cPlayerB : Player :=
  { id := "b"
    sessionId := "s1"
    name := "Ben"
    socketId := some ("sb")
    hasProfile := true
    profile := some ("pb") }

/-- Store with session "s1" playing and players `cPlayerF`, `cPlayerB`. -/
def cStoreAB : Store :=
  { sessions := [{ sessionId := "s1", status := "playing" }]
    players := [cPlayerF, cPlayerB] }

/-- The store after a first socket confirmation of "b" by socket "sf". -/
def cStoreAfterConfirm : Store := (handleConfirmMatch cStoreAB ("sf") ("b") none 10).2

/-- Requester of the assignment fixtures (session "s2"). -/
def cReq : Player :=
  { id := "r"
    sessionId := "s2"
    name := "Ria"
    socketId := some ("sr")
    hasProfile := true
    profile := some ("pr") }

/-- Assignment candidate already handed out five times. -/
def cCandHi : Player :=
  { id := "h"
    sessionId := "s2"
    name := "Hilda"
    socketId := some ("sh")
    hasProfile := true
    profile := some ("ph")
    timesAssigned := 5 }

/-- Assignment candidate never handed out. -/
def cCandLo : Player :=
  { id := "l"
    sessionId := "s2"
    name := "Lola"
    socketId := some ("sl")
    hasProfile := true
    profile := some ("pl")
    timesAssigned := 0 }

/-- Store with session "s2" and the three assignment players. -/
def cStoreAssign : Store :=
  { sessions := [{ sessionId := "s2", status := "playing" }]
    players := [cReq, cCandHi, cCandLo] }

/-- Store where the only eligible candidate for requester "r" is "h". -/
def cStoreOneCand : Store :=
  { sessions := [{ sessionId := "s2", status := "playing" }]
    players := [cReq, cCandHi] }

/-- An ended session with one disconnected player, for the reconnection
fixture. -/
def cPlayerOld : Player :=
  { id := "p3"
    sessionId := "s3"
    name := "Olde"
    socketId := some ("so")
    status := "disconnected" }

/-- Store with session "s3" ended and player `cPlayerOld`. -/
def cStoreEnded : Store :=
  { sessions := [{ sessionId := "s3", status := "ended" }]
    players := [cPlayerOld] }

/-- A waiting session with one disconnected player, for the successful
reconnection witness. -/
def cStoreWaiting : Store :=
  { sessions := [{ sessionId := "s3", status := "waiting" }]
    players := [cPlayerOld] }

/-- Tie-break fixture: equal scores, the LATER matcher first in document
order. -/
def cTieLate : Player :=
  { id := "ta"
    sessionId := "s4"
    name := "Late"
    score := 5
    lastMatchAt := some 10 }

/-- Tie-break fixture: the earlier matcher, second in document order. -/
def cTieEarly : Player :=
  { id := "tb"
    sessionId := "s4"
    name := "Early"
    score := 5
    lastMatchAt := some 3 }

/-- Finder of the tie-break fixture session. -/
def cFinder4 : Player :=
  { id := "f4"
    sessionId := "s4"
    name := "Finder"
    socketId := some ("s4f")
    hasProfile := true }

/-- Found player of the tie-break fixture session. -/
def cFound4 : Player :=
  { id := "b4"
    sessionId := "s4"
    name := "Found"
    hasProfile := true }

/-- Store with session "s4" and the four tie-break players. -/
def cStoreTie : Store :=
  { sessions := [{ sessionId := "s4", status := "playing" }]
    players := [cFinder4, cTieLate, cTieEarly, cFound4] }

/-- A trigger event for the throttler (a state change calls
`emitLeaderboardUpdate`); the players collection is empty, which is
irrelevant to the scheduling behaviour. -/
def evTrig (sid : String) (t : Nat) : TEvent :=
  { isFire := false, sid := sid, time := t, db := [] }

/-- A `setTimeout` callback of the throttler running. -/
def evFire (sid : String) (t : Nat) : TEvent :=
  { isFire := true, sid := sid, time := t, db := [] }

/-- The colliding trace: session "x_scheduled" emits once, then session "x"
emits at 6001 and triggers again at 6002; the 6002 trigger finds the key
"x_scheduled" occupied by the OTHER session's timestamp, so nothing is
scheduled and the trigger is swallowed. -/
def clashTrace : List TEvent :=
  [evTrig ("x_scheduled") 6000, evTrig ("x") 6001, evTrig ("x") 6002]

/-- A well-behaved trace for the throttler witness: an immediate emission at
6000, a trigger at 6001 that schedules the callback, and the callback firing
at 11000. -/
def wTrace : List TEvent :=
  [evTrig ("a") 6000, evTrig ("a") 6001, evFire ("a") 11000]

/-! Theorems. -/

/-- Claim C1: the spec asserts at-most-once match recording — for identical
(finder, found) pairs exactly one confirmation records and the match list
holds at most one entry per found player.  The executable confirmation path
(`handleConfirmMatch`) has no duplicate guard: confirming "b" twice from
socket "sf" leaves TWO `matchedWith = "b"` entries in the finder's match
list, awards 100 points twice, and answers `matchFound` (success) both
times.  This evaluates the code at the failing input. -/
theorem duplicate_match_recorded_twice :
  ((handleConfirmMatch cStoreAfterConfirm ("sf") ("b") none 11).2.players.find?
      (fun p => p.id == "f")).map
    (fun p => ((p.matchList.filter (fun m => m.matchedWith == some ("b"))).length, p.score)) =
      some (2, 200) ∧
  (handleConfirmMatch cStoreAB ("sf") ("b") none 10).1.head? =
    some (SEvent.matchFound ("Faye") ("Ben") 100) ∧
  (handleConfirmMatch cStoreAfterConfirm ("sf") ("b") none 11).1.head? =
    some (SEvent.matchFound ("Faye") ("Ben") 100) := by decide

/-- Claim C4: the spec asserts that on a successful confirmation the
completion check compares the post-update match count against the count of
other profiled players and sets `completedAt`/`isCompleted` atomically.  In
the code the whole success path is unreachable: at the failing input —
session "s1" exists, "b" is the only other profiled player, so one
confirmation would complete the finder — the route answers the generic 500
and writes nothing; `completedAt` stays unset, and the match count stays 0.
(The completion write at routes.js 445-448 is moreover a plain
`findByIdAndUpdate` guarded only by an in-memory test, not a conditional
update.) -/
theorem completion_flag_never_set :
  confirmMatchRoute cStoreAB ("s1") ("f") ("b") =
    (HttpResp.serverError ("Failed to confirm match"), cStoreAB) ∧
  cStoreAB.players.countP
    (fun p => p.sessionId == "s1" && !(p.id == "f") && p.profile.isSome) = 1 ∧
  (cStoreAB.players.find? (fun p => p.id == "f")).map
    (fun p => (p.completedAt, p.isCompleted, p.matchList.length)) = some (none, false, 0) := by
  decide

/-- Claim C3 counterexample: a duplicate confirmation is not answered with a
distinct non-error already-recorded signal — `handleConfirmMatch` answers
`matchFound` (plain success) and mutates the store again. -/
theorem duplicate_confirm_reported_as_success :
  (handleConfirmMatch cStoreAfterConfirm ("sf") ("b") none 11).1.head? =
    some (SEvent.matchFound ("Faye") ("Ben") 100) ∧
  ¬ (handleConfirmMatch cStoreAfterConfirm ("sf") ("b") none 11).2 = cStoreAfterConfirm := by
  decide

/-- Claim C2 counterexample: `handleGetNewProfile` (a requestAssignment
entry point) returns candidate "h" with `timesAssigned = 5` although the
eligible candidate "l" has `timesAssigned = 0`, and it increments no
counter: the store is returned unchanged. -/
theorem socket_assignment_ignores_fairness :
  (handleGetNewProfile cStoreAssign ("sr") ("s2") 0).1 =
    [SEvent.profileAssigned (some ("ph")) ("h")] ∧
  (handleGetNewProfile cStoreAssign ("sr") ("s2") 0).2 = cStoreAssign ∧
  (cStoreAssign.players.find? (fun p => p.id == "h")).map Player.timesAssigned = some 5 ∧
  cStoreAssign.players.contains cCandLo = true ∧
  cCandLo.timesAssigned = 0 ∧ cCandLo.hasProfile = true ∧
  cCandLo.sessionId = "s2" ∧ ¬ cCandLo.id = "r" := by decide

/-- Claim C8 counterexample: a reconnection whose prior identifier resolves
to an existing player of the session is REJECTED when the session status is
"ended" (the ended test at socketHandlers.js 30 precedes the reconnect
branch), contradicting "succeeds regardless of session status". -/
theorem reconnect_rejected_when_ended :
  cStoreEnded.players.find? (fun p => p.id == "p3" && p.sessionId == "s3") = some cPlayerOld ∧
  handleJoinGame cStoreEnded ("snew") ("Olde") ("s3") (some ("p3")) ("pX") =
    ([SEvent.errorMsg ("This session has already ended.")], cStoreEnded) ∧
  (cStoreEnded.players.find? (fun p => p.id == "p3")).map Player.status =
    some ("disconnected") := by decide

/-- Claim C9 counterexample: the leaderboard broadcast by
`handleConfirmMatch` places the later matcher `cTieLate` (last match at 10)
before the earlier matcher `cTieEarly` (last match at 3) although their
scores are equal — the socket comparator ignores `lastMatchAt`. -/
theorem socket_leaderboard_breaks_tie_order :
  ((handleConfirmMatch cStoreTie ("s4f") ("b4") none 7).1.any (fun ev =>
    match ev with
    | SEvent.leaderboardUpdated l => l[1]? == some cTieLate && l[2]? == some cTieEarly
    | _ => false)) = true ∧
  ¬ LbOrdered cTieLate cTieEarly := by decide

/-- Claim C5 counterexample: on the valid trace `clashTrace`, session "x"
triggers at 6002, nothing is pending afterwards (so no later broadcast can
ever happen without a new trigger), yet every emission for "x" precedes
6002: the 6002 state change is permanently swallowed, because the timestamp
that session "x_scheduled" stores under the key "x_scheduled" is mistaken
for session "x"'s scheduled flag. -/
theorem throttler_swallows_on_key_collision :
  tValid tInit clashTrace = true ∧
  clashTrace.contains (evTrig ("x") 6002) = true ∧
  agendaFor ("x") (tRun tInit clashTrace) = [] ∧
  ¬ emissionsFor ("x") (tRun tInit clashTrace) = [] ∧
  ((emissionsFor ("x") (tRun tInit clashTrace)).all (fun em => em.time < 6002)) = true := by
  decide

/-- Claim C9 (amended): broadcasts produced by the throttled
`emitLeaderboardUpdate` query are sorted by score descending then
last-match time ascending and list exactly the session's players; the
direct leaderboard broadcast of `handleConfirmMatch` is sorted by score
descending only (ties stay in document order, not last-match order). -/
theorem leaderboard_broadcasts_sorted :
  (∀ (db : List Player) (sid : String), List.Sorted LbOrdered (leaderboardQuery db sid)) ∧
  (∀ (db : List Player) (sid : String),
    (leaderboardQuery db sid).Perm (db.filter (fun p => p.sessionId == sid))) ∧
  (∀ (db : List Player) (sid : String), List.Sorted ScoreDesc (socketLeaderboard db sid)) :=
  ⟨fun db sid => List.sorted_insertionSort LbOrdered (db.filter (fun p => p.sessionId == sid)),
   fun db sid => List.perm_insertionSort LbOrdered (db.filter (fun p => p.sessionId == sid)),
   fun db sid => List.sorted_insertionSort ScoreDesc (db.filter (fun p => p.sessionId == sid))⟩

/-- Claim C3 (amended): `handleConfirmMatch` answers a not-found error, with
the store unchanged, whenever the finder socket or the found player id does
not resolve; but a duplicate match gets no distinct signal — re-confirming
an already recorded pair appends a second match entry (the already-recorded
response of the HTTP route is unreachable, see the C10 theorem). -/
theorem confirm_match_error_signalling :
  (∀ (st : Store) (sock fid : String) (sel : Option String) (now : Nat),
    st.players.find? (fun p => p.socketId == some sock) = none ∨
      st.players.find? (fun p => p.id == fid) = none →
    handleConfirmMatch st sock fid sel now =
      ([SEvent.errorMsg ("One or both players not found")], st)) ∧
  ((handleConfirmMatch cStoreAfterConfirm ("sf") ("b") none 11).2.players.find?
      (fun p => p.id == "f")).map (fun p => p.matchList.length) = some 2 := by
  constructor
  · intro st sock fid sel now h
    unfold handleConfirmMatch
    rcases h with h | h
    · rw [h]
    · rw [h]
      cases st.players.find? (fun p => p.socketId == some sock) <;> rfl
  · decide

/-- Witness for the C3 theorem at a concrete input: looking up the unknown
player id "zz" fails, so the handler reports not-found and leaves the store
unchanged. -/
theorem confirm_match_error_signalling_witness :
  (cStoreAB.players.find? (fun p => p.id == "zz") = none) ∧
  handleConfirmMatch cStoreAB ("sf") ("zz") none 5 =
    ([SEvent.errorMsg ("One or both players not found")], cStoreAB) :=
  ⟨by decide,
   confirm_match_error_signalling.1 cStoreAB ("sf") ("zz") none 5 (Or.inr (by decide))⟩

/-- Claim C10: in the HTTP match-confirmation route the update document
references the identifiers `matchTime` and `foundPlayer`, which are not in
the handler's scope (first conjunct, a decidable fact about the embedded
scope); hence whenever the session exists the handler raises before any
store write, the success response is unreachable, no record is mutated, and
the caller receives the generic failure. -/
theorem match_route_success_unreachable (st : Store) (sid fid bid : String)
    (hs : (st.sessions.find? (fun s => s.sessionId == sid)).isSome = true) :
    (matchRouteFreeIdents.all (fun x => matchRouteScope.contains x)) = false ∧
    confirmMatchRoute st sid fid bid =
      (HttpResp.serverError ("Failed to confirm match"), st) := by
  refine ⟨by decide, ?_⟩
  unfold confirmMatchRoute
  cases h : st.sessions.find? (fun s => s.sessionId == sid) with
  | none => rw [h] at hs; simp at hs
  | some s =>
    rw [show (matchRouteFreeIdents.all fun x => matchRouteScope.contains x) = false from by decide]
    simp

/-- Witness for the C10 theorem: session "s1" exists in `cStoreAB`, and the
route answers the generic 500 with the store unchanged. -/
theorem match_route_success_unreachable_witness :
  (cStoreAB.sessions.find? (fun s => s.sessionId == "s1")).isSome = true ∧
  ((matchRouteFreeIdents.all (fun x => matchRouteScope.contains x)) = false ∧
   confirmMatchRoute cStoreAB ("s1") ("f") ("b") =
     (HttpResp.serverError ("Failed to confirm match"), cStoreAB)) :=
  ⟨by decide, match_route_success_unreachable cStoreAB ("s1") ("f") ("b") (by decide)⟩

/-- Claim C8 (amended): `handleJoinGame` rejects a new join (no prior
identifier) when the session status is "playing" or "ended"; a reconnection
whose prior identifier resolves to a player of the session succeeds and
sets the player connected when the status is not "ended", but an ended
session rejects even reconnections (the ended test precedes the reconnect
branch). -/
theorem join_and_reconnect_rules :
  (∀ (st : Store) (sock nm sid newId : String) (session : Session),
    st.sessions.find? (fun s => s.sessionId == sid) = some session →
    session.status = "playing" →
    handleJoinGame st sock nm sid none newId =
      ([SEvent.errorMsg ("This session is already in progress and cannot be joined.")], st)) ∧
  (∀ (st : Store) (sock nm sid newId : String) (pid : Option String) (session : Session),
    st.sessions.find? (fun s => s.sessionId == sid) = some session →
    session.status = "ended" →
    handleJoinGame st sock nm sid pid newId =
      ([SEvent.errorMsg ("This session has already ended.")], st)) ∧
  (∀ (st : Store) (sock nm sid pid newId : String) (session : Session) (p0 : Player),
    st.sessions.find? (fun s => s.sessionId == sid) = some session →
    (session.status == "ended") = false →
    st.players.find? (fun p => p.id == pid && p.sessionId == sid) = some p0 →
    handleJoinGame st sock nm sid (some pid) newId =
      ([SEvent.gameState session.status
          ((updateFirst (fun p => p.id == p0.id && p.sessionId == sid)
            (fun p => { p with socketId := some sock, status := "connected" }) st.players).filter
            (fun p => p.sessionId == sid))
          { p0 with socketId := some sock, status := "connected" },
        SEvent.playerJoined { p0 with socketId := some sock, status := "connected" }],
       { st with players := (updateFirst (fun p => p.id == p0.id && p.sessionId == sid)
           (fun p => { p with socketId := some sock, status := "connected" }) st.players) }) ∧
      (Player.status { p0 with socketId := some sock, status := "connected" }) = "connected") := by
  refine ⟨?_, ?_, ?_⟩
  · intro st sock nm sid newId session hsess hstat
    unfold handleJoinGame
    simp only [hsess, hstat]
    rfl
  · intro st sock nm sid newId pid session hsess hstat
    unfold handleJoinGame
    simp only [hsess, hstat]
    rfl
  · intro st sock nm sid pid newId session p0 hsess hstat hfind
    unfold handleJoinGame
    simp only [hsess, hstat, Bool.false_eq_true, if_false, hfind]
    exact ⟨by trivial, by trivial⟩

/-- Witness for the C8 theorem: a new join into playing session "s1" is
rejected; any join into ended session "s3" is rejected; a reconnection of
player "p3" into waiting session "s3" succeeds and reconnects the player. -/
theorem join_and_reconnect_rules_witness :
  (cStoreAB.sessions.find? (fun s => s.sessionId == "s1") =
     some { sessionId := "s1", status := "playing" } ∧
   handleJoinGame cStoreAB ("sx") ("Zoe") ("s1") none ("pz") =
     ([SEvent.errorMsg ("This session is already in progress and cannot be joined.")],
      cStoreAB)) ∧
  (cStoreEnded.sessions.find? (fun s => s.sessionId == "s3") =
     some { sessionId := "s3", status := "ended" } ∧
   handleJoinGame cStoreEnded ("sy") ("Olde") ("s3") (some ("p3")) ("py") =
     ([SEvent.errorMsg ("This session has already ended.")], cStoreEnded)) ∧
  (cStoreWaiting.players.find? (fun p => p.id == "p3" && p.sessionId == "s3") =
     some cPlayerOld ∧
   handleJoinGame cStoreWaiting ("snew") ("Olde") ("s3") (some ("p3")) ("pX") =
     ([SEvent.gameState ("waiting")
         ((updateFirst (fun p => p.id == cPlayerOld.id && p.sessionId == "s3")
           (fun p => { p with socketId := some ("snew"), status := "connected" })
           cStoreWaiting.players).filter (fun p => p.sessionId == "s3"))
         { cPlayerOld with socketId := some ("snew"), status := "connected" },
       SEvent.playerJoined { cPlayerOld with socketId := some ("snew"), status := "connected" }],
      { cStoreWaiting with
         players := (updateFirst (fun p => p.id == cPlayerOld.id && p.sessionId == "s3")
           (fun p => { p with socketId := some ("snew"), status := "connected" })
           cStoreWaiting.players) }) ∧
     (Player.status { cPlayerOld with socketId := some ("snew"), status := "connected" }) =
       "connected") :=
  ⟨⟨by decide,
    join_and_reconnect_rules.1 cStoreAB ("sx") ("Zoe") ("s1") ("pz")
      { sessionId := "s1", status := "playing" } (by decide) rfl⟩,
   ⟨by decide,
    join_and_reconnect_rules.2.1 cStoreEnded ("sy") ("Olde") ("s3") ("py") (some ("p3"))
      { sessionId := "s3", status := "ended" } (by decide) rfl⟩,
   ⟨by decide,
    join_and_reconnect_rules.2.2 cStoreWaiting ("snew") ("Olde") ("s3") ("p3") ("pX")
      { sessionId := "s3", status := "waiting" } cPlayerOld (by decide) (by decide) (by decide)⟩⟩

/-- Helper: when the min-selection finds nothing, no document satisfies the
filter. -/
theorem pickMinAssigned_none (pred : Player → Bool) :
    ∀ l : List Player, pickMinAssigned pred l = none → ∀ r ∈ l, pred r = false := by
  intro l
  induction l with
  | nil => intro _ r hr; simp at hr
  | cons p ps ih =>
    intro h r hr
    unfold pickMinAssigned at h
    cases hrec : pickMinAssigned pred ps with
    | none =>
      rw [hrec] at h
      by_cases hp : pred p
      · simp [hp] at h
      · rcases List.mem_cons.mp hr with he | hm
        · subst he; simpa using hp
        · exact ih hrec r hm
    | some x =>
      rw [hrec] at h
      obtain ⟨j, q⟩ := x
      by_cases hp : pred p <;> simp [hp] at h
      by_cases hle : p.timesAssigned ≤ q.timesAssigned <;> simp [hle] at h

/-- Helper: the min-selection returns a document of the list, at the
returned position, satisfying the filter. -/
theorem pickMinAssigned_mem (pred : Player → Bool) :
    ∀ (l : List Player) (i : Nat) (c : Player),
      pickMinAssigned pred l = some (i, c) → l[i]? = some c ∧ pred c = true := by
  intro l
  induction l with
  | nil => intro i c h; simp [pickMinAssigned] at h
  | cons p ps ih =>
    intro i c h
    unfold pickMinAssigned at h
    cases hrec : pickMinAssigned pred ps with
    | none =>
      rw [hrec] at h
      by_cases hp : pred p
      · simp [hp] at h
        obtain ⟨hi, hc⟩ := h
        subst hi; subst hc
        simpa using hp
      · simp [hp] at h
    | some x =>
      rw [hrec] at h
      obtain ⟨j, q⟩ := x
      obtain ⟨hq1, hq2⟩ := ih j q hrec
      by_cases hp : pred p
      · by_cases hle : p.timesAssigned ≤ q.timesAssigned
        · simp [hp, hle] at h
          obtain ⟨hi, hc⟩ := h
          subst hi; subst hc
          simpa using hp
        · simp [hp, hle] at h
          obtain ⟨hi, hc⟩ := h
          subst hi; subst hc
          exact ⟨by simpa using hq1, hq2⟩
      · simp [hp] at h
        obtain ⟨hi, hc⟩ := h
        subst hi; subst hc
        exact ⟨by simpa using hq1, hq2⟩

/-- Helper: the min-selection is minimal — no document satisfying the
filter has a strictly smaller `timesAssigned`. -/
theorem pickMinAssigned_min (pred : Player → Bool) :
    ∀ (l : List Player) (i : Nat) (c : Player),
      pickMinAssigned pred l = some (i, c) →
      ∀ r ∈ l, pred r = true → c.timesAssigned ≤ r.timesAssigned := by
  intro l
  induction l with
  | nil => intro i c h; simp [pickMinAssigned] at h
  | cons p ps ih =>
    intro i c h r hr hpr
    unfold pickMinAssigned at h
    cases hrec : pickMinAssigned pred ps with
    | none =>
      rw [hrec] at h
      by_cases hp : pred p
      · simp [hp] at h
        obtain ⟨hi, hc⟩ := h
        subst hc
        rcases List.mem_cons.mp hr with he | hm
        · subst he; exact le_refl _
        · exact absurd hpr (by simp [pickMinAssigned_none pred ps hrec r hm])
      · simp [hp] at h
    | some x =>
      rw [hrec] at h
      obtain ⟨j, q⟩ := x
      by_cases hp : pred p
      · by_cases hle : p.timesAssigned ≤ q.timesAssigned
        · simp [hp, hle] at h
          obtain ⟨hi, hc⟩ := h
          subst hc
          rcases List.mem_cons.mp hr with he | hm
          · subst he; exact le_refl _
          · exact le_trans hle (ih j q hrec r hm hpr)
        · simp [hp, hle] at h
          obtain ⟨hi, hc⟩ := h
          subst hc
          rcases List.mem_cons.mp hr with he | hm
          · subst he; exact le_of_not_le hle
          · exact ih j q hrec r hm hpr
      · simp [hp] at h
        obtain ⟨hi, hc⟩ := h
        subst hc
        rcases List.mem_cons.mp hr with he | hm
        · subst he; simp [hp] at hpr
        · exact ih j q hrec r hm hpr

/-- Claim C2 (amended): when the FIRST pass of the HTTP assignment route
finds a candidate, that candidate is an eligible document (same session,
not the requester, not excluded, `hasProfile`), has minimal `timesAssigned`
among all eligible documents, and the route answers its profile while
incrementing exactly that document's `timesAssigned` in the same selection
step.  (The socket-side `handleGetNewProfile` does not satisfy the original
claim: see the counterexample.) -/
theorem assignment_route_first_pass (st : Store) (sessionId playerId : String)
    (skip : Option String) (currentPlayer c : Player) (i : Nat)
    (hcur : st.players.find? (fun p => p.id == playerId) = some currentPlayer)
    (hpick : pickMinAssigned (npEligible sessionId playerId (exclusionOf currentPlayer skip))
        st.players = some (i, c)) :
    npEligible sessionId playerId (exclusionOf currentPlayer skip) c = true ∧
    (∀ q ∈ st.players,
      npEligible sessionId playerId (exclusionOf currentPlayer skip) q = true →
      c.timesAssigned ≤ q.timesAssigned) ∧
    st.players[i]? = some c ∧
    newProfileRoute st sessionId playerId skip =
      (ProfileResp.assigned c.profile c.id c.name,
       { st with players := updateAtIdx i incAssigned st.players }) := by
  obtain ⟨hmem, hpred⟩ := pickMinAssigned_mem _ st.players i c hpick
  refine ⟨hpred, fun q hq hqe => pickMinAssigned_min _ st.players i c hpick q hq hqe, hmem, ?_⟩
  unfold newProfileRoute
  simp only [hcur, hpick]
  rfl

/-- Witness for the C2 theorem: in `cStoreAssign` the first pass for
requester "r" picks "l" (position 2, `timesAssigned` 0) and increments it. -/
theorem assignment_route_first_pass_witness :
  (cStoreAssign.players.find? (fun p => p.id == "r") = some cReq ∧
   pickMinAssigned (npEligible ("s2") ("r") (exclusionOf cReq none)) cStoreAssign.players =
     some (2, cCandLo)) ∧
  (npEligible ("s2") ("r") (exclusionOf cReq none) cCandLo = true ∧
   (∀ q ∈ cStoreAssign.players,
     npEligible ("s2") ("r") (exclusionOf cReq none) q = true →
     cCandLo.timesAssigned ≤ q.timesAssigned) ∧
   cStoreAssign.players[2]? = some cCandLo ∧
   newProfileRoute cStoreAssign ("s2") ("r") none =
     (ProfileResp.assigned cCandLo.profile cCandLo.id cCandLo.name,
      { cStoreAssign with players := updateAtIdx 2 incAssigned cStoreAssign.players })) :=
  ⟨⟨by decide, by decide⟩,
   assignment_route_first_pass cStoreAssign ("s2") ("r") none cReq cCandLo 2
     (by decide) (by decide)⟩

/-- Claim C6: when the first pass (exclusions = matched ids plus the skip
id) finds nothing and a truthy skip was supplied, the route retries exactly
once with only the matched ids excluded; if the retry also finds nothing it
answers the non-error `ALL_PLAYERS_FOUND` outcome with the store
unchanged, otherwise it assigns the retry's candidate. -/
theorem assignment_retry_and_exhaustion (st : Store) (sessionId playerId s : String)
    (currentPlayer : Player)
    (hcur : st.players.find? (fun p => p.id == playerId) = some currentPlayer)
    (hs : (s == "") = false)
    (h1 : pickMinAssigned (npEligible sessionId playerId
        (matchedOf currentPlayer ++ [some s])) st.players = none) :
    newProfileRoute st sessionId playerId (some s) =
      (match pickMinAssigned (npEligible sessionId playerId (matchedOf currentPlayer))
          st.players with
       | none => (ProfileResp.allFound, st)
       | some (i, c) =>
         (ProfileResp.assigned c.profile c.id c.name,
          { st with players := updateAtIdx i incAssigned st.players })) := by
  unfold newProfileRoute
  have hex : exclusionOf currentPlayer (some s) = matchedOf currentPlayer ++ [some s] := by
    simp [exclusionOf, hs]
  have htr : truthy (some s) = true := by
    simp [truthy, hs]
  simp only [hcur, hex, h1, htr, if_true]
  cases pickMinAssigned (npEligible sessionId playerId (matchedOf currentPlayer)) st.players with
  | none => rfl
  | some x => obtain ⟨i, c⟩ := x; rfl

/-- Witness for the C6 theorem: in `cStoreOneCand` the only candidate for
requester "r" is "h"; skipping "h" empties the first pass, and the retry
assigns "h" anyway. -/
theorem assignment_retry_and_exhaustion_witness :
  (cStoreOneCand.players.find? (fun p => p.id == "r") = some cReq ∧
   ("h" == "") = false ∧
   pickMinAssigned (npEligible ("s2") ("r") (matchedOf cReq ++ [some ("h")]))
     cStoreOneCand.players = none) ∧
  newProfileRoute cStoreOneCand ("s2") ("r") (some ("h")) =
    (match pickMinAssigned (npEligible ("s2") ("r") (matchedOf cReq)) cStoreOneCand.players with
     | none => (ProfileResp.allFound, cStoreOneCand)
     | some (i, c) =>
       (ProfileResp.assigned c.profile c.id c.name,
        { cStoreOneCand with players := updateAtIdx i incAssigned cStoreOneCand.players })) :=
  ⟨⟨by decide, by decide, by decide⟩,
   assignment_retry_and_exhaustion cStoreOneCand ("s2") ("r") ("h") cReq
     (by decide) (by decide) (by decide)⟩

/-- Helper: a found first index carries a matching document. -/
theorem firstIdx_getElem (pred : Player → Bool) :
    ∀ (l : List Player) (i : Nat), firstIdx pred l = some i →
      ∃ x, l[i]? = some x ∧ pred x = true := by
  intro l
  induction l with
  | nil => intro i h; simp [firstIdx] at h
  | cons p ps ih =>
    intro i h
    unfold firstIdx at h
    by_cases hp : pred p
    · simp [hp] at h
      subst h
      exact ⟨p, by simp, by simpa using hp⟩
    · simp [hp] at h
      obtain ⟨j, hj, hij⟩ := h
      obtain ⟨x, hx1, hx2⟩ := ih j hj
      subst hij
      exact ⟨x, by simpa using hx1, hx2⟩

/-- Helper: `find?` returns the document at the first matching index. -/
theorem find?_of_firstIdx (pred : Player → Bool) :
    ∀ (l : List Player) (i : Nat) (x : Player),
      firstIdx pred l = some i → l[i]? = some x → l.find? pred = some x := by
  intro l
  induction l with
  | nil => intro i x h; simp [firstIdx] at h
  | cons p ps ih =>
    intro i x h hget
    unfold firstIdx at h
    by_cases hp : pred p
    · simp [hp] at h
      subst h
      simp at hget
      subst hget
      simp [List.find?_cons_of_pos, hp]
    · simp [hp] at h
      obtain ⟨j, hj, hij⟩ := h
      subst hij
      simp at hget
      rw [List.find?_cons_of_neg _ (by simpa using hp)]
      exact ih j x hj hget

/-- Helper: updating on an absent filter is a no-op. -/
theorem updateFirst_of_firstIdx_none (pred : Player → Bool) (f : Player → Player) :
    ∀ l : List Player, firstIdx pred l = none → updateFirst pred f l = l := by
  intro l
  induction l with
  | nil => intro _; rfl
  | cons p ps ih =>
    intro h
    unfold firstIdx at h
    by_cases hp : pred p
    · simp [hp] at h
    · simp [hp] at h
      unfold updateFirst
      rw [if_neg (by simpa using hp), ih h]

/-- Helper: a first-match update rewrites exactly the document at the first
matching index. -/
theorem updateFirst_getElem (pred : Player → Bool) (f : Player → Player) :
    ∀ (l : List Player) (j : Nat), firstIdx pred l = some j →
      ∀ i : Nat, (updateFirst pred f l)[i]? = if i = j then (l[i]?).map f else l[i]? := by
  intro l
  induction l with
  | nil => intro j h; simp [firstIdx] at h
  | cons p ps ih =>
    intro j h i
    unfold firstIdx at h
    by_cases hp : pred p
    · simp [hp] at h
      subst h
      unfold updateFirst
      rw [if_pos hp]
      cases i with
      | zero => simp
      | succ k => simp
    · simp [hp] at h
      obtain ⟨j', hj, hij⟩ := h
      subst hij
      unfold updateFirst
      rw [if_neg (by simpa using hp)]
      cases i with
      | zero => simp
      | succ k =>
        simp only [List.getElem?_cons_succ, Nat.succ.injEq, Nat.add_right_cancel_iff]
        rw [ih j' hj k]

/-- Helper: a key-preserving update does not move any first index. -/
theorem firstIdx_updateFirst (pred pred' : Player → Bool) (f : Player → Player)
    (l : List Player) (hcong : ∀ x, pred' (f x) = pred' x) :
    firstIdx pred' (updateFirst pred f l) = firstIdx pred' l := by
  induction l with
  | nil => rfl
  | cons p ps ih =>
    unfold updateFirst
    by_cases hp : pred p
    · rw [if_pos hp]
      unfold firstIdx
      rw [hcong p]
    · rw [if_neg (by simpa using hp)]
      unfold firstIdx
      rw [ih]

/-- Helper: a key-preserving first-match update preserves the projection of
every document to its (id, socketId) pair. -/
theorem updateFirst_keys (pred : Player → Bool) (f : Player → Player) (l : List Player)
    (hf : ∀ x, ((f x).id, (f x).socketId) = (x.id, x.socketId)) :
    (updateFirst pred f l).map (fun p => (p.id, p.socketId)) =
      l.map (fun p => (p.id, p.socketId)) := by
  induction l with
  | nil => rfl
  | cons p ps ih =>
    unfold updateFirst
    by_cases hp : pred p
    · rw [if_pos hp]
      simp [hf p]
    · rw [if_neg (by simpa using hp)]
      simp [ih]

/-- Helper: the HTTP match route never changes the store (C10). -/
theorem confirmMatchRoute_store (st : Store) (sid fid bid : String) :
    (confirmMatchRoute st sid fid bid).2 = st := by
  unfold confirmMatchRoute
  cases st.sessions.find? (fun s => s.sessionId == sid) with
  | none => rfl
  | some s =>
    by_cases h : (matchRouteFreeIdents.all fun x => matchRouteScope.contains x) = true
    · rw [if_pos h]
    · rw [if_neg h]

/-- Helper: every game operation preserves each document's (id, socketId)
pair, position by position. -/
theorem applyOp_keys (st : Store) (op : GameOp) :
    (applyOp st op).players.map (fun p => (p.id, p.socketId)) =
      st.players.map (fun p => (p.id, p.socketId)) := by
  cases op with
  | socketConfirm s fid sel now =>
    simp only [applyOp]
    unfold handleConfirmMatch
    cases h1 : st.players.find? (fun p => p.socketId == some s) with
    | none =>
      cases h2 : st.players.find? (fun p => p.id == fid) with
      | none => simp [h1, h2]
      | some foundPlayer => simp [h1, h2]
    | some finderPlayer =>
      cases h2 : st.players.find? (fun p => p.id == fid) with
      | none => simp [h1, h2]
      | some foundPlayer =>
        simp only [h1, h2]
        rw [updateFirst_keys, updateFirst_keys] <;> exact fun x => rfl
  | wrongGuess fid =>
    simp only [applyOp]
    unfold wrongMatchRoute
    rw [updateFirst_keys]
    exact fun x => rfl
  | httpConfirm sid fid bid =>
    simp only [applyOp]
    rw [confirmMatchRoute_store]

/-- Helper: presence of a document id only depends on the key projection. -/
theorem any_id_eq_of_keys : ∀ (l l' : List Player) (fid : String),
    l.map (fun p => (p.id, p.socketId)) = l'.map (fun p => (p.id, p.socketId)) →
    l.any (fun x => x.id == fid) = l'.any (fun x => x.id == fid) := by
  intro l
  induction l with
  | nil =>
    intro l' fid h
    cases l' with
    | nil => rfl
    | cons q qs => simp at h
  | cons p ps ih =>
    intro l' fid h
    cases l' with
    | nil => simp at h
    | cons q qs =>
      simp only [List.map_cons, List.cons.injEq] at h
      obtain ⟨h1, h2⟩ := h
      have hid : p.id = q.id := congrArg Prod.fst h1
      simp only [List.any_cons, hid, ih qs fid h2]

/-- Helper: a successful `find?` pins down the first matching index. -/
theorem firstIdx_of_find? (pred : Player → Bool) :
    ∀ (l : List Player) (x : Player), l.find? pred = some x →
      ∃ j, firstIdx pred l = some j ∧ l[j]? = some x := by
  intro l
  induction l with
  | nil => intro x h; simp at h
  | cons p ps ih =>
    intro x h
    by_cases hp : pred p
    · rw [List.find?_cons_of_pos _ hp] at h
      injection h with h
      exact ⟨0, by simp [firstIdx, hp], by simp [h]⟩
    · rw [List.find?_cons_of_neg _ (by simpa using hp)] at h
      obtain ⟨j, hj1, hj2⟩ := ih x h
      exact ⟨j + 1, by simp [firstIdx, hp, hj1], by simpa using hj2⟩

/-- Helper: lengths of the target list and the confirmation count agree. -/
theorem confirmTargets_length (sock : String) :
    ∀ ops : List GameOp, (confirmTargets sock ops).length = confirmsBy sock ops := by
  intro ops
  induction ops with
  | nil => rfl
  | cons op ops ih =>
    simp only [confirmTargets, confirmsBy] at ih
    cases op with
    | socketConfirm s fid sel now =>
      simp only [confirmTargets, confirmsBy, List.filterMap_cons, List.countP_cons]
      by_cases hs : (s == sock) = true
      · simp only [hs, if_true, List.length_cons]
        rw [ih]
      · simp only [Bool.not_eq_true] at hs
        simp only [hs, Bool.false_eq_true, if_false]
        rw [ih]
        rfl
    | wrongGuess f =>
      simp only [confirmTargets, confirmsBy, List.filterMap_cons, List.countP_cons]
      rw [ih]
      rfl
    | httpConfirm sid fid bid =>
      simp only [confirmTargets, confirmsBy, List.filterMap_cons, List.countP_cons]
      rw [ih]
      rfl

/-- Helper: the effect of one operation on the tracked player — its score
moves by `opScoreDelta`, its recorded `matchedWith` ids extend by exactly
the confirmed target (when the operation is its own confirmation), its keys
are unchanged, and it stays the first document for both its socket and its
id. -/
theorem applyOp_effect (sock pid : String) (i : Nat) (st : Store) (q : Player) (op : GameOp)
    (hf1 : firstIdx (fun p => p.socketId == some sock) st.players = some i)
    (hf2 : firstIdx (fun p => p.id == pid) st.players = some i)
    (hget : st.players[i]? = some q)
    (hsock : q.socketId = some sock) (hid : q.id = pid)
    (hfound : ∀ s fid sel now, op = GameOp.socketConfirm s fid sel now → (s == sock) = true →
      (st.players.any (fun x => x.id == fid)) = true) :
    ∃ q1, (applyOp st op).players[i]? = some q1 ∧
      q1.socketId = q.socketId ∧ q1.id = q.id ∧
      q1.score = q.score + opScoreDelta sock pid op ∧
      q1.matchList.map (fun m => m.matchedWith) =
        q.matchList.map (fun m => m.matchedWith) ++ (confirmTargets sock [op]).map some := by
  cases op with
  | socketConfirm s fid sel now =>
    by_cases hs : (s == sock) = true
    · have hs' : s = sock := by simpa using hs
      subst hs'
      have hfind1 : st.players.find? (fun p => p.socketId == some s) = some q :=
        find?_of_firstIdx _ st.players i q hf1 hget
      have hany : (st.players.any (fun x => x.id == fid)) = true :=
        hfound s fid sel now rfl hs
      have hsome : (st.players.find? (fun p => p.id == fid)).isSome = true := by
        rw [List.find?_isSome]
        simpa using List.any_eq_true.mp hany
      cases hfind2 : st.players.find? (fun p => p.id == fid) with
      | none => rw [hfind2] at hsome; simp at hsome
      | some foundPlayer =>
        have hfpid : foundPlayer.id = fid := by
          have := List.find?_some hfind2
          simpa using this
        simp only [applyOp]
        unfold handleConfirmMatch
        rw [hfind1, hfind2]
        simp only []
        set f1 : Player → Player := fun p =>
          { p with
            score := q.score + 100
            matchList := p.matchList ++
              [{ playerId := none
                 matchedWith := some foundPlayer.id
                 matchedAt := some now
                 selfieUrl := sel
                 playerName := foundPlayer.name }]
            peopleKnown := p.peopleKnown + 1 } with hf1def
        set players1 := updateFirst (fun p => p.socketId == some s) f1 st.players with hp1def
        have hget1 : players1[i]? = some (f1 q) := by
          rw [hp1def, updateFirst_getElem _ f1 st.players i hf1 i]
          simp [hget]
        have hidxa : firstIdx (fun p => p.socketId == some s) players1 = some i := by
          rw [hp1def, firstIdx_updateFirst]
          · exact hf1
          · exact fun x => rfl
        cases hidx2 : firstIdx (fun p => p.id == foundPlayer.id) players1 with
        | none =>
          rw [updateFirst_of_firstIdx_none _ _ players1 hidx2]
          refine ⟨f1 q, hget1, rfl, rfl, ?_, ?_⟩
          · simp [hf1def, opScoreDelta]
          · simp [hf1def, confirmTargets, hfpid]
        | some j =>
          rw [updateFirst_getElem _ _ players1 j hidx2 i]
          by_cases hij : i = j
          · rw [if_pos hij, hget1]
            refine ⟨_, rfl, rfl, rfl, ?_, ?_⟩
            · simp [hf1def, opScoreDelta]
            · simp [hf1def, confirmTargets, hfpid]
          · rw [if_neg hij]
            refine ⟨f1 q, hget1, rfl, rfl, ?_, ?_⟩
            · simp [hf1def, opScoreDelta]
            · simp [hf1def, confirmTargets, hfpid]
    · replace hs : (s == sock) = false := by simpa using hs
      have hsne : ¬ s = sock := by simpa using hs
      cases hfind1 : st.players.find? (fun p => p.socketId == some s) with
      | none =>
        cases hfind2 : st.players.find? (fun p => p.id == fid) with
        | none =>
          simp only [applyOp]
          unfold handleConfirmMatch
          rw [hfind1, hfind2]
          exact ⟨q, hget, rfl, rfl, by simp [opScoreDelta, hs, hsne], by simp [confirmTargets, hs, hsne]⟩
        | some foundPlayer =>
          simp only [applyOp]
          unfold handleConfirmMatch
          rw [hfind1, hfind2]
          exact ⟨q, hget, rfl, rfl, by simp [opScoreDelta, hs, hsne], by simp [confirmTargets, hs, hsne]⟩
      | some finderPlayer =>
        cases hfind2 : st.players.find? (fun p => p.id == fid) with
        | none =>
          simp only [applyOp]
          unfold handleConfirmMatch
          rw [hfind1, hfind2]
          exact ⟨q, hget, rfl, rfl, by simp [opScoreDelta, hs, hsne], by simp [confirmTargets, hs, hsne]⟩
        | some foundPlayer =>
          obtain ⟨j, hj1, hj2⟩ := firstIdx_of_find? _ st.players finderPlayer hfind1
          have hji : j ≠ i := by
            intro he
            subst he
            rw [hj2] at hget
            injection hget with hq
            subst hq
            have := List.find?_some hfind1
            rw [hsock] at this
            simp at this
            subst this
            simp at hs
          simp only [applyOp]
          unfold handleConfirmMatch
          rw [hfind1, hfind2]
          simp only []
          set f1 : Player → Player := fun p =>
            { p with
              score := finderPlayer.score + 100
              matchList := p.matchList ++
                [{ playerId := none
                   matchedWith := some foundPlayer.id
                   matchedAt := some now
                   selfieUrl := sel
                   playerName := foundPlayer.name }]
              peopleKnown := p.peopleKnown + 1 } with hf1def
          set players1 := updateFirst (fun p => p.socketId == some s) f1 st.players with hp1def
          have hget1 : players1[i]? = some q := by
            rw [hp1def, updateFirst_getElem _ f1 st.players j hj1 i]
            rw [if_neg (fun he => hji (he.symm))]
            exact hget
          cases hidx2 : firstIdx (fun p => p.id == foundPlayer.id) players1 with
          | none =>
            rw [updateFirst_of_firstIdx_none _ _ players1 hidx2]
            exact ⟨q, hget1, rfl, rfl, by simp [opScoreDelta, hs, hsne], by simp [confirmTargets, hs, hsne]⟩
          | some k =>
            rw [updateFirst_getElem _ _ players1 k hidx2 i]
            by_cases hik : i = k
            · rw [if_pos hik, hget1]
              exact ⟨_, rfl, rfl, rfl, by simp [opScoreDelta, hs, hsne], by simp [confirmTargets, hs, hsne]⟩
            · rw [if_neg hik]
              exact ⟨q, hget1, rfl, rfl, by simp [opScoreDelta, hs, hsne], by simp [confirmTargets, hs, hsne]⟩
  | wrongGuess fid =>
    by_cases hfp : (fid == pid) = true
    · have hfp' : fid = pid := by simpa using hfp
      subst hfp'
      simp only [applyOp]
      unfold wrongMatchRoute
      simp only []
      rw [updateFirst_getElem _ _ st.players i hf2 i]
      rw [if_pos rfl, hget]
      refine ⟨_, rfl, rfl, rfl, ?_, by simp [confirmTargets]⟩
      simp only [opScoreDelta, hfp, if_true]
      omega
    · simp only [applyOp]
      unfold wrongMatchRoute
      simp only []
      cases hidx : firstIdx (fun p => p.id == fid) st.players with
      | none =>
        rw [updateFirst_of_firstIdx_none _ _ st.players hidx]
        exact ⟨q, hget, rfl, rfl, by simp [opScoreDelta, hfp], by simp [confirmTargets]⟩
      | some j =>
        have hji : i ≠ j := by
          intro he
          obtain ⟨x, hx1, hx2⟩ := firstIdx_getElem _ st.players j hidx
          rw [← he, hget] at hx1
          injection hx1 with hx1
          subst hx1
          rw [hid] at hx2
          simp at hx2
          subst hx2
          simp at hfp
        rw [updateFirst_getElem _ _ st.players j hidx i, if_neg hji]
        exact ⟨q, hget, rfl, rfl, by simp [opScoreDelta, hfp], by simp [confirmTargets]⟩
  | httpConfirm sid fid bid =>
    simp only [applyOp]
    rw [confirmMatchRoute_store]
    exact ⟨q, hget, rfl, rfl, by simp [opScoreDelta], by simp [confirmTargets]⟩

/-- Helper: a first index for a key-only filter depends only on the key
projection. -/
theorem firstIdx_eq_of_keys (pk : String × Option String → Bool) :
    ∀ (l l' : List Player),
      l.map (fun p => (p.id, p.socketId)) = l'.map (fun p => (p.id, p.socketId)) →
      firstIdx (fun p => pk (p.id, p.socketId)) l =
        firstIdx (fun p => pk (p.id, p.socketId)) l' := by
  intro l
  induction l with
  | nil =>
    intro l' h
    cases l' with
    | nil => rfl
    | cons q qs => simp at h
  | cons p ps ih =>
    intro l' h
    cases l' with
    | nil => simp at h
    | cons q qs =>
      simp only [List.map_cons, List.cons.injEq] at h
      obtain ⟨h1, h2⟩ := h
      unfold firstIdx
      rw [h1, ih qs h2]

/-- Helper: the accounting of one player across a whole operation
sequence — the final score is the initial score plus 100 per own
confirmation minus 10 per wrong guess filed against the player, and the
recorded `matchedWith` ids extend by exactly the confirmed targets in
order. -/
theorem runOps_score (sock pid : String) (i : Nat) :
    ∀ (ops : List GameOp) (st : Store) (q : Player),
      firstIdx (fun p => p.socketId == some sock) st.players = some i →
      firstIdx (fun p => p.id == pid) st.players = some i →
      st.players[i]? = some q →
      q.socketId = some sock → q.id = pid →
      (∀ op ∈ ops, ∀ s fid sel now, op = GameOp.socketConfirm s fid sel now →
        (s == sock) = true → (st.players.any (fun x => x.id == fid)) = true) →
      ∃ q2, (runOps st ops).players[i]? = some q2 ∧
        q2.socketId = some sock ∧ q2.id = pid ∧
        q2.score = q.score + 100 * (confirmsBy sock ops : Int) - 10 * (wrongsOn pid ops : Int) ∧
        q2.matchList.map (fun m => m.matchedWith) =
          q.matchList.map (fun m => m.matchedWith) ++ (confirmTargets sock ops).map some := by
  intro ops
  induction ops with
  | nil =>
    intro st q hf1 hf2 hget hsock hid _
    exact ⟨q, hget, hsock, hid, by simp [confirmsBy, wrongsOn], by simp [confirmTargets]⟩
  | cons op ops ih =>
    intro st q hf1 hf2 hget hsock hid hfound
    obtain ⟨q1, hget1, hsock1, hid1, hscore1, hml1⟩ :=
      applyOp_effect sock pid i st q op hf1 hf2 hget hsock hid
        (fun s fid sel now he hb => hfound op (List.mem_cons_self op ops) s fid sel now he hb)
    have hkeys := applyOp_keys st op
    have hf1' : firstIdx (fun p => p.socketId == some sock) (applyOp st op).players = some i := by
      rw [firstIdx_eq_of_keys (fun k => k.2 == some sock) (applyOp st op).players st.players hkeys]
      exact hf1
    have hf2' : firstIdx (fun p => p.id == pid) (applyOp st op).players = some i := by
      rw [firstIdx_eq_of_keys (fun k => k.1 == pid) (applyOp st op).players st.players hkeys]
      exact hf2
    have hsock1' : q1.socketId = some sock := by rw [hsock1, hsock]
    have hid1' : q1.id = pid := by rw [hid1, hid]
    have hfound' : ∀ o ∈ ops, ∀ s fid sel now, o = GameOp.socketConfirm s fid sel now →
        (s == sock) = true → ((applyOp st op).players.any (fun x => x.id == fid)) = true := by
      intro o ho s fid sel now he hb
      rw [any_id_eq_of_keys _ _ fid hkeys]
      exact hfound o (List.mem_cons_of_mem op ho) s fid sel now he hb
    obtain ⟨q2, hget2, hsock2, hid2, hscore2, hml2⟩ :=
      ih (applyOp st op) q1 hf1' hf2' hget1 hsock1' hid1' hfound'
    refine ⟨q2, hget2, hsock2, hid2, ?_, ?_⟩
    · rw [hscore2, hscore1]
      cases op with
      | socketConfirm s fid sel now =>
        by_cases hs : s = sock
        · subst hs
          simp [confirmsBy, wrongsOn, List.countP_cons, opScoreDelta]
          ring
        · simp [confirmsBy, wrongsOn, List.countP_cons, opScoreDelta, hs]
      | wrongGuess f =>
        by_cases hf : f = pid
        · subst hf
          simp [confirmsBy, wrongsOn, List.countP_cons, opScoreDelta]
          ring
        · simp [confirmsBy, wrongsOn, List.countP_cons, opScoreDelta, hf]
      | httpConfirm sid fid bid =>
        simp [confirmsBy, wrongsOn, List.countP_cons, opScoreDelta]
    · rw [hml2, hml1]
      cases op with
      | socketConfirm s fid sel now =>
        by_cases hs : s = sock
        · subst hs
          simp [confirmTargets, List.filterMap_cons]
        · simp [confirmTargets, List.filterMap_cons, hs]
      | wrongGuess f => simp [confirmTargets, List.filterMap_cons]
      | httpConfirm sid fid bid => simp [confirmTargets, List.filterMap_cons]

/-- Claim C7: after confirming N distinct matches a player's score is
N × 100 minus 10 per wrong guess applied to them, exactly.  The executable
confirmation path is the socket handler: the HTTP match route never writes
(see the C10 theorem), so its found-reward of 50 is never granted and does
not disturb the equality.  Over any interleaving of operations, a player
starting at score 0 with no matches ends with score
100·(own confirmations) − 10·(wrong-guess reports against them), one
recorded match entry per confirmation, and — given pairwise-distinct
targets — pairwise-distinct recorded ids. -/
theorem score_roundtrip (sock pid : String) (i : Nat) (ops : List GameOp)
    (st0 : Store) (q0 : Player)
    (hf1 : firstIdx (fun p => p.socketId == some sock) st0.players = some i)
    (hf2 : firstIdx (fun p => p.id == pid) st0.players = some i)
    (hget : st0.players[i]? = some q0)
    (hsock : q0.socketId = some sock) (hid : q0.id = pid)
    (hscore : q0.score = 0) (hml : q0.matchList = [])
    (hfound : ∀ op ∈ ops, ∀ s fid sel now, op = GameOp.socketConfirm s fid sel now →
      (s == sock) = true → (st0.players.any (fun x => x.id == fid)) = true)
    (hdistinct : (confirmTargets sock ops).Nodup) :
    ∃ q, (runOps st0 ops).players[i]? = some q ∧
      q.score = 100 * (confirmsBy sock ops : Int) - 10 * (wrongsOn pid ops : Int) ∧
      q.matchList.length = confirmsBy sock ops ∧
      (q.matchList.map (fun m => m.matchedWith)).Nodup := by
  obtain ⟨q, hq, _, _, hsc, hm⟩ :=
    runOps_score sock pid i ops st0 q0 hf1 hf2 hget hsock hid hfound
  refine ⟨q, hq, ?_, ?_, ?_⟩
  · rw [hsc, hscore]
    ring
  · have hlen := congrArg List.length hm
    simpa [hml, confirmTargets_length] using hlen
  · rw [hm, hml]
    simpa using List.Nodup.map (Option.some_injective String) hdistinct

/-- Witness for the C7 theorem at a concrete input: in `cStoreAB`, player
"f" (socket "sf", position 0) confirms "b" once and receives one
wrong-guess report; the final score is 100·1 − 10·1 with one recorded
match. -/
theorem score_roundtrip_witness :
  cStoreAB.players[0]? = some cPlayerF ∧
  ∃ q, (runOps cStoreAB
      [GameOp.socketConfirm ("sf") ("b") none 10, GameOp.wrongGuess ("f")]).players[0]? = some q ∧
    q.score = 100 * (confirmsBy ("sf")
        [GameOp.socketConfirm ("sf") ("b") none 10, GameOp.wrongGuess ("f")] : Int) -
      10 * (wrongsOn ("f")
        [GameOp.socketConfirm ("sf") ("b") none 10, GameOp.wrongGuess ("f")] : Int) ∧
    q.matchList.length = confirmsBy ("sf")
        [GameOp.socketConfirm ("sf") ("b") none 10, GameOp.wrongGuess ("f")] ∧
    (q.matchList.map (fun m => m.matchedWith)).Nodup :=
  ⟨by decide,
   score_roundtrip ("sf") ("f") 0
     [GameOp.socketConfirm ("sf") ("b") none 10, GameOp.wrongGuess ("f")]
     cStoreAB cPlayerF (by decide) (by decide) (by decide) (by decide) (by decide) (by decide)
     (by decide)
     (by
       intro op hop s fid sel now he hb
       simp only [List.mem_cons, List.not_mem_nil, or_false] at hop
       rcases hop with h | h
       · subst h
         injection he with h1 h2 h3 h4
         subst h2
         decide
       · subst h
         simp at he)
     (by decide)⟩

/-- Helper: `Map.set` then `get` at the same key. -/
theorem tmGet_set_self : ∀ (m : TimerMap) (k : String) (v : TVal),
    tmGet (tmSet m k v) k = some v := by
  intro m
  induction m with
  | nil => intro k v; simp [tmSet, tmGet]
  | cons e rest ih =>
    intro k v
    unfold tmSet
    by_cases h : (e.1 == k) = true
    · rw [if_pos h]
      simp [tmGet]
    · rw [if_neg h]
      unfold tmGet
      rw [List.find?_cons_of_neg _ (by simpa using h)]
      exact ih k v

/-- Helper: `Map.set` then `get` at a different key. -/
theorem tmGet_set_ne : ∀ (m : TimerMap) (k k' : String) (v : TVal), ¬ k' = k →
    tmGet (tmSet m k v) k' = tmGet m k' := by
  intro m
  induction m with
  | nil =>
    intro k k' v hne
    have hkk : (k == k') = false := by
      simp only [beq_eq_false_iff_ne, ne_eq]
      exact fun hx => hne hx.symm
    simp [tmSet, tmGet, List.find?_cons, hkk]
  | cons e rest ih =>
    intro k k' v hne
    unfold tmSet
    by_cases h : (e.1 == k) = true
    · rw [if_pos h]
      have he : e.1 = k := by simpa using h
      have hkk : (k == k') = false := by
        simp only [beq_eq_false_iff_ne, ne_eq]
        exact fun hx => hne hx.symm
      unfold tmGet
      simp only [List.find?_cons, hkk, he]
    · rw [if_neg h]
      unfold tmGet
      by_cases h2 : (e.1 == k') = true
      · simp only [List.find?_cons, h2]
      · rw [Bool.not_eq_true] at h2
        simp only [List.find?_cons, h2]
        exact ih k k' v hne

/-- Helper: an absent key reads as `none`. -/
theorem tmGet_eq_none_of_not_mem : ∀ (m : TimerMap) (k : String),
    ¬ k ∈ m.map Prod.fst → tmGet m k = none := by
  intro m
  induction m with
  | nil => intro k _; rfl
  | cons e rest ih =>
    intro k hk
    simp only [List.map_cons, List.mem_cons] at hk
    push_neg at hk
    unfold tmGet
    rw [List.find?_cons_of_neg _ (by simp; exact fun hx => hk.1 hx.symm)]
    exact ih k hk.2

/-- Helper: `Map.delete` then `get` at the same key (unique keys). -/
theorem tmGet_delete_self : ∀ (m : TimerMap) (k : String),
    (m.map Prod.fst).Nodup → tmGet (tmDelete m k) k = none := by
  intro m
  induction m with
  | nil => intro k _; rfl
  | cons e rest ih =>
    intro k hnd
    simp only [List.map_cons, List.nodup_cons] at hnd
    unfold tmDelete
    by_cases h : (e.1 == k) = true
    · rw [if_pos h]
      have he : e.1 = k := by simpa using h
      apply tmGet_eq_none_of_not_mem
      rw [← he]
      exact hnd.1
    · rw [if_neg h]
      unfold tmGet
      rw [List.find?_cons_of_neg _ (by simpa using h)]
      exact ih k hnd.2

/-- Helper: `Map.delete` then `get` at a different key. -/
theorem tmGet_delete_ne : ∀ (m : TimerMap) (k k' : String), ¬ k' = k →
    tmGet (tmDelete m k) k' = tmGet m k' := by
  intro m
  induction m with
  | nil => intro k k' _; rfl
  | cons e rest ih =>
    intro k k' hne
    unfold tmDelete
    by_cases h : (e.1 == k) = true
    · rw [if_pos h]
      have he : e.1 = k := by simpa using h
      have hkk : (k == k') = false := by
        simp only [beq_eq_false_iff_ne, ne_eq]
        exact fun hx => hne hx.symm
      unfold tmGet
      simp only [List.find?_cons, he, hkk]
    · rw [if_neg h]
      unfold tmGet
      by_cases h2 : (e.1 == k') = true
      · simp only [List.find?_cons, h2]
      · rw [Bool.not_eq_true] at h2
        simp only [List.find?_cons, h2]
        exact ih k k' hne

/-- Helper: a key present after `Map.set` was present before or is the set
key. -/
theorem mem_keys_tmSet : ∀ (m : TimerMap) (k : String) (v : TVal) (x : String),
    x ∈ (tmSet m k v).map Prod.fst → x ∈ m.map Prod.fst ∨ x = k := by
  intro m
  induction m with
  | nil =>
    intro k v x hx
    simp [tmSet] at hx
    exact Or.inr hx
  | cons e rest ih =>
    intro k v x hx
    unfold tmSet at hx
    by_cases h : (e.1 == k) = true
    · rw [if_pos h] at hx
      have he : e.1 = k := by simpa using h
      simp only [List.map_cons, List.mem_cons] at hx ⊢
      rcases hx with hx | hx
      · exact Or.inr hx
      · exact Or.inl (Or.inr hx)
    · rw [if_neg h] at hx
      simp only [List.map_cons, List.mem_cons] at hx ⊢
      rcases hx with hx | hx
      · exact Or.inl (Or.inl hx)
      · rcases ih k v x hx with h2 | h2
        · exact Or.inl (Or.inr h2)
        · exact Or.inr h2

/-- Helper: `Map.set` keeps the keys unique. -/
theorem tmSet_keys_nodup : ∀ (m : TimerMap) (k : String) (v : TVal),
    (m.map Prod.fst).Nodup → ((tmSet m k v).map Prod.fst).Nodup := by
  intro m
  induction m with
  | nil => intro k v _; simp [tmSet]
  | cons e rest ih =>
    intro k v hnd
    simp only [List.map_cons, List.nodup_cons] at hnd
    unfold tmSet
    by_cases h : (e.1 == k) = true
    · rw [if_pos h]
      have he : e.1 = k := by simpa using h
      simp only [List.map_cons, List.nodup_cons]
      exact ⟨he ▸ hnd.1, hnd.2⟩
    · rw [if_neg h]
      simp only [List.map_cons, List.nodup_cons]
      refine ⟨?_, ih k v hnd.2⟩
      intro hmem
      rcases mem_keys_tmSet rest k v e.1 hmem with h2 | h2
      · exact hnd.1 h2
      · exact absurd h2 (by simpa using h)

/-- Helper: `Map.delete` keeps the keys unique. -/
theorem tmDelete_keys_nodup : ∀ (m : TimerMap) (k : String),
    (m.map Prod.fst).Nodup → ((tmDelete m k).map Prod.fst).Nodup := by
  intro m
  induction m with
  | nil => intro k _; simp [tmDelete]
  | cons e rest ih =>
    intro k hnd
    simp only [List.map_cons, List.nodup_cons] at hnd
    unfold tmDelete
    by_cases h : (e.1 == k) = true
    · rw [if_pos h]
      exact hnd.2
    · rw [if_neg h]
      simp only [List.map_cons, List.nodup_cons]
      refine ⟨?_, ih k hnd.2⟩
      intro hmem
      have hsub : List.Sublist (tmDelete rest k) rest := by
        clear ih hnd hmem
        induction rest with
        | nil => simp [tmDelete]
        | cons f fs ihf =>
          unfold tmDelete
          by_cases hf : (f.1 == k) = true
          · rw [if_pos hf]
            exact List.sublist_cons_self f fs
          · rw [if_neg hf]
            exact List.Sublist.cons₂ f ihf
      exact hnd.1 ((hsub.map Prod.fst).subset hmem)

/-- Helper: the flag key differs from the session key. -/
theorem schedKey_ne_self (s : String) : ¬ schedKey s = s := by
  intro h
  have hl := congrArg String.length h
  simp only [schedKey, String.length_append] at hl
  have h10 : ("_scheduled" : String).length = 10 := by decide
  omega

/-- Helper: flag keys of different sessions differ. -/
theorem schedKey_inj {a b : String} (h : schedKey a = schedKey b) : a = b := by
  have hd := congrArg String.data h
  simp only [schedKey, String.data_append] at hd
  exact String.ext (List.append_cancel_right hd)

/-- Helper: emissions only accumulate along a run. -/
theorem tRun_emissions_mono : ∀ (evs : List TEvent) (s : TState) (em : Emission),
    em ∈ s.emissions → em ∈ (tRun s evs).emissions := by
  intro evs
  induction evs with
  | nil => intro s em h; exact h
  | cons e es ih =>
    intro s em h
    simp only [tRun]
    apply ih
    unfold tStep
    by_cases hf : e.isFire = true
    · simp [hf, h]
    · simp only [hf, Bool.false_eq_true, if_false]
      by_cases h1 : THROTTLE_INTERVAL ≤ e.time - tmGetNum s.timers e.sid
      · simp [h1, h]
      · by_cases h2 : (tmGet s.timers (schedKey e.sid)).isSome = true
        · simp [h1, h2, h]
        · simp [h1, h2, h]

/-- Helper: an element not matched by the predicate survives `eraseP`. -/
theorem mem_eraseP_of_not : ∀ (l : List (String × Nat)) (x : String × Nat)
    (p : String × Nat → Bool), x ∈ l → p x = false → x ∈ l.eraseP p := by
  intro l
  induction l with
  | nil => intro x p h _; simp at h
  | cons a as ih =>
    intro x p hmem hpx
    rw [List.eraseP_cons]
    rcases List.mem_cons.mp hmem with he | hm
    · subst he
      rw [hpx]
      simp
    · by_cases hpa : p a = true
      · simp only [hpa, cond_true]
        exact hm
      · rw [Bool.not_eq_true] at hpa
        simp only [hpa, cond_false]
        exact List.mem_cons_of_mem a (ih x p hm hpx)

/-- Helper: erasing an entry of a different filter class leaves a filter
unchanged. -/
theorem filter_eraseP_disjoint : ∀ (l : List (String × Nat)) (p q : String × Nat → Bool),
    (∀ x, p x = true → q x = false) → (l.eraseP p).filter q = l.filter q := by
  intro l
  induction l with
  | nil => intro p q _; rfl
  | cons a as ih =>
    intro p q h
    rw [List.eraseP_cons]
    by_cases hpa : p a = true
    · simp only [hpa, cond_true]
      rw [List.filter_cons, h a hpa]
      simp
    · rw [Bool.not_eq_true] at hpa
      simp only [hpa, cond_false]
      rw [List.filter_cons, List.filter_cons]
      cases hqa : q a <;> simp [hqa, ih p q h]

/-- Helper: when a session's agenda is its single due entry, the firing
erase leaves that session with no pending entry. -/
theorem agendaFor_erase : ∀ (l : List (String × Nat)) (sid : String) (t : Nat),
    l.filter (fun x => x.1 == sid) = [(sid, t)] →
    (l.eraseP (fun x => x.1 == sid && x.2 == t)).filter (fun x => x.1 == sid) = [] := by
  intro l
  induction l with
  | nil => intro sid t h; simp at h
  | cons a as ih =>
    intro sid t h
    rw [List.filter_cons] at h
    by_cases ha : (a.1 == sid) = true
    · rw [if_pos ha] at h
      have ha2 : a = (sid, t) := by
        have := List.head_eq_of_cons_eq h
        exact this
      have htail : as.filter (fun x => x.1 == sid) = [] := List.tail_eq_of_cons_eq h
      rw [List.eraseP_cons]
      have hpa : (a.1 == sid && a.2 == t) = true := by
        subst ha2
        simp
      rw [hpa]
      simpa using htail
    · rw [if_neg ha] at h
      rw [List.eraseP_cons]
      have hpa : (a.1 == sid && a.2 == t) = false := by
        rw [Bool.not_eq_true] at ha
        simp [ha]
      rw [hpa]
      simp only [cond_false]
      rw [List.filter_cons]
      rw [if_neg (by simpa using ha)]
      exact ih sid t h

/-- Helper: the invariant holds in the fresh-process state. -/
theorem TInv_init (sid : String) : TInv sid tInit := by
  refine ⟨?_, ?_, ?_, ?_, ?_, ?_⟩ <;>
    simp [TInv, tInit, emissionsFor, agendaFor, tmGetNum, tmGet]

/-- Helper: one valid, collision-free event preserves the invariant. -/
theorem TInv_step (sid : String) (s : TState) (e : TEvent)
    (hv : validEvent s e = true)
    (hnc : e.sid = sid ∨ (¬ e.sid = schedKey sid ∧ ¬ sid = schedKey e.sid))
    (hinv : TInv sid s) : TInv sid (tStep s e) := by
  obtain ⟨h1, h2, h3, h4, h5, h6⟩ := hinv
  unfold validEvent at hv
  rw [Bool.and_eq_true] at hv
  obtain ⟨hclock, hv2⟩ := hv
  rw [decide_eq_true_eq] at hclock
  by_cases hf : e.isFire = true
  · -- fire event
    rw [if_pos hf, Bool.and_eq_true] at hv2
    obtain ⟨hmemb, hallb⟩ := hv2
    have hmem : (e.sid, e.time) ∈ s.agenda := by simpa using hmemb
    have hall : ∀ x ∈ s.agenda, e.time ≤ x.2 := by
      intro x hx
      have := List.all_eq_true.mp hallb x hx
      simpa using this
    unfold tStep
    rw [if_pos hf]
    by_cases hes : e.sid = sid
    · subst hes
      have hflag : (tmGet s.timers (schedKey e.sid)).isSome = true := by
        by_contra hno
        rw [Bool.not_eq_true] at hno
        rw [if_neg (by simp [hno])] at h4
        have hin : (e.sid, e.time) ∈ agendaFor e.sid s := by
          simp [agendaFor, List.mem_filter, hmem]
        rw [h4] at hin
        simp at hin
      rw [if_pos (by simp [hflag])] at h4
      have htime : e.time = tmGetNum s.timers e.sid + THROTTLE_INTERVAL := by
        have hin : (e.sid, e.time) ∈ agendaFor e.sid s := by
          simp [agendaFor, List.mem_filter, hmem]
        rw [h4] at hin
        simpa using hin
      have hT1 : tmGet (tmDelete (tmSet s.timers e.sid (TVal.ts e.time)) (schedKey e.sid))
          e.sid = some (TVal.ts e.time) := by
        rw [tmGet_delete_ne _ _ _ (fun h => schedKey_ne_self e.sid h.symm)]
        exact tmGet_set_self s.timers e.sid (TVal.ts e.time)
      have hflag2 : tmGet (tmDelete (tmSet s.timers e.sid (TVal.ts e.time)) (schedKey e.sid))
          (schedKey e.sid) = none :=
        tmGet_delete_self _ _ (tmSet_keys_nodup s.timers e.sid (TVal.ts e.time) h6)
      have h4t : s.agenda.filter (fun x => x.1 == e.sid) = [(e.sid, e.time)] := by
        have := h4
        unfold agendaFor at this
        rw [this, htime]
      refine ⟨?_, ?_, ?_, ?_, ?_, ?_⟩
      · simp only [tmGetNum, hT1]
        exact Nat.le_refl _
      · intro em hem
        simp only [emissionsFor, List.filter_append] at hem
        rw [List.mem_append] at hem
        simp only [tmGetNum, hT1]
        rcases hem with hem | hem
        · have := h2 em (by simpa [emissionsFor] using hem)
          omega
        · simp at hem
          subst hem
          exact Nat.le_refl _
      · simp only [emissionsFor, List.filter_append]
        rw [List.pairwise_append]
        refine ⟨h3, by simp, ?_⟩
        intro a ha b hb
        simp at hb
        subst hb
        have := h2 a (by simpa [emissionsFor] using ha)
        show a.time + THROTTLE_INTERVAL ≤ e.time
        omega
      · rw [if_neg (by simp [hflag2])]
        unfold agendaFor
        exact agendaFor_erase s.agenda e.sid e.time h4t
      · intro x hx
        have hxin : x ∈ s.agenda := List.mem_of_mem_eraseP hx
        exact hall x hxin
      · exact tmDelete_keys_nodup _ _ (tmSet_keys_nodup s.timers e.sid (TVal.ts e.time) h6)
    · obtain ⟨hnc1, hnc2⟩ := hnc.resolve_left hes
      have hss : ¬ sid = e.sid := fun h => hes h.symm
      have hT1 : tmGet (tmDelete (tmSet s.timers e.sid (TVal.ts e.time)) (schedKey e.sid))
          sid = tmGet s.timers sid := by
        rw [tmGet_delete_ne _ _ _ hnc2]
        exact tmGet_set_ne _ _ _ _ hss
      have hT2 : tmGet (tmDelete (tmSet s.timers e.sid (TVal.ts e.time)) (schedKey e.sid))
          (schedKey sid) = tmGet s.timers (schedKey sid) := by
        rw [tmGet_delete_ne _ _ _ (fun h => hes (schedKey_inj h.symm))]
        exact tmGet_set_ne _ _ _ _ (fun h => hnc1 h.symm)
      have hnil : List.filter (fun em => em.sid == sid)
          ([{ sid := e.sid, time := e.time, payload := leaderboardQuery e.db e.sid }] :
            List Emission) = [] := by
        simp [hes]
      have hAg : (s.agenda.eraseP (fun x => x.1 == e.sid && x.2 == e.time)).filter
          (fun x => x.1 == sid) = s.agenda.filter (fun x => x.1 == sid) := by
        apply filter_eraseP_disjoint
        intro x hx
        rw [Bool.and_eq_true] at hx
        have : x.1 = e.sid := by simpa using hx.1
        simp [this, hes]
      refine ⟨?_, ?_, ?_, ?_, ?_, ?_⟩
      · simp only [tmGetNum, hT1]
        exact le_trans h1 hclock
      · intro em hem
        simp only [emissionsFor, List.filter_append, hnil, List.append_nil] at hem
        simp only [tmGetNum, hT1]
        exact h2 em hem
      · simp only [emissionsFor, List.filter_append, hnil, List.append_nil]
        exact h3
      · simp only [tmGetNum, hT1, hT2]
        unfold agendaFor
        rw [hAg]
        unfold agendaFor at h4
        exact h4
      · intro x hx
        exact hall x (List.mem_of_mem_eraseP hx)
      · exact tmDelete_keys_nodup _ _ (tmSet_keys_nodup s.timers e.sid (TVal.ts e.time) h6)
  · -- trigger event
    rw [if_neg hf] at hv2
    have hlt : ∀ x ∈ s.agenda, e.time < x.2 := by
      intro x hx
      have := List.all_eq_true.mp hv2 x hx
      simpa using this
    unfold tStep
    rw [if_neg hf]
    by_cases hes : e.sid = sid
    · subst hes
      by_cases hbr : THROTTLE_INTERVAL ≤ e.time - tmGetNum s.timers e.sid
      · -- immediate emission
        have hflag : (tmGet s.timers (schedKey e.sid)).isSome = false := by
          by_contra hyes
          rw [Bool.not_eq_false] at hyes
          rw [if_pos (by simp [hyes])] at h4
          have hin : (e.sid, tmGetNum s.timers e.sid + THROTTLE_INTERVAL) ∈ s.agenda := by
            have : (e.sid, tmGetNum s.timers e.sid + THROTTLE_INTERVAL) ∈ agendaFor e.sid s := by
              rw [h4]
              simp
            simpa [agendaFor, List.mem_filter] using this
          have hstrict := hlt _ hin
          simp only [] at hstrict
          have hle := le_trans h1 hclock
          omega
        rw [if_neg (by simp [hflag])] at h4
        rw [if_pos hbr]
        have hT1 : tmGet (tmSet s.timers e.sid (TVal.ts e.time)) e.sid =
            some (TVal.ts e.time) := tmGet_set_self _ _ _
        have hT2 : tmGet (tmSet s.timers e.sid (TVal.ts e.time)) (schedKey e.sid) =
            tmGet s.timers (schedKey e.sid) :=
          tmGet_set_ne _ _ _ _ (schedKey_ne_self e.sid)
        have hle := le_trans h1 hclock
        refine ⟨?_, ?_, ?_, ?_, ?_, ?_⟩
        · simp only [tmGetNum, hT1]
          exact Nat.le_refl _
        · intro em hem
          simp only [emissionsFor, List.filter_append] at hem
          rw [List.mem_append] at hem
          simp only [tmGetNum, hT1]
          rcases hem with hem | hem
          · have := h2 em (by simpa [emissionsFor] using hem)
            omega
          · simp at hem
            subst hem
            exact Nat.le_refl _
        · simp only [emissionsFor, List.filter_append]
          rw [List.pairwise_append]
          refine ⟨h3, by simp, ?_⟩
          intro a ha b hb
          simp at hb
          subst hb
          have := h2 a (by simpa [emissionsFor] using ha)
          show a.time + THROTTLE_INTERVAL ≤ e.time
          omega
        · rw [hT2]
          rw [if_neg (by simp [hflag])]
          exact h4
        · intro x hx
          exact le_of_lt (hlt x hx)
        · exact tmSet_keys_nodup _ _ _ h6
      · rw [if_neg hbr]
        by_cases hsch : (tmGet s.timers (schedKey e.sid)).isSome = true
        · -- absorbed
          rw [if_pos (by simp [hsch])]
          refine ⟨le_trans h1 hclock, h2, h3, h4, ?_, h6⟩
          intro x hx
          exact le_of_lt (hlt x hx)
        · -- schedule
          rw [if_neg hsch]
          rw [if_neg (by simp [by simpa using hsch])] at h4
          have hT1 : tmGet (tmSet s.timers (schedKey e.sid) TVal.flag) e.sid =
              tmGet s.timers e.sid :=
            tmGet_set_ne _ _ _ _ (fun h => schedKey_ne_self e.sid h.symm)
          have hT2 : tmGet (tmSet s.timers (schedKey e.sid) TVal.flag) (schedKey e.sid) =
              some TVal.flag := tmGet_set_self _ _ _
          have hle := le_trans h1 hclock
          have hd : e.time + (THROTTLE_INTERVAL - (e.time - tmGetNum s.timers e.sid)) =
              tmGetNum s.timers e.sid + THROTTLE_INTERVAL := by
            omega
          refine ⟨?_, ?_, ?_, ?_, ?_, ?_⟩
          · simp only [tmGetNum, hT1]
            exact le_trans h1 hclock
          · intro em hem
            simp only [tmGetNum, hT1]
            exact h2 em (by simpa [emissionsFor] using hem)
          · exact h3
          · rw [if_pos (by simp [hT2])]
            unfold agendaFor
            rw [List.filter_append]
            unfold agendaFor at h4
            rw [h4, List.nil_append]
            have hnum : tmGetNum (tmSet s.timers (schedKey e.sid) TVal.flag) e.sid =
                tmGetNum s.timers e.sid := by
              simp only [tmGetNum, hT1]
            rw [hnum]
            simp [hd]
          · intro x hx
            rw [List.mem_append] at hx
            rcases hx with hx | hx
            · exact le_of_lt (hlt x hx)
            · simp at hx
              rw [hx]
              simp
          · exact tmSet_keys_nodup _ _ _ h6
    · obtain ⟨hnc1, hnc2⟩ := hnc.resolve_left hes
      have hss : ¬ sid = e.sid := fun h => hes h.symm
      by_cases hbr : THROTTLE_INTERVAL ≤ e.time - tmGetNum s.timers e.sid
      · rw [if_pos hbr]
        have hT1 : tmGet (tmSet s.timers e.sid (TVal.ts e.time)) sid =
            tmGet s.timers sid := tmGet_set_ne _ _ _ _ hss
        have hT2 : tmGet (tmSet s.timers e.sid (TVal.ts e.time)) (schedKey sid) =
            tmGet s.timers (schedKey sid) :=
          tmGet_set_ne _ _ _ _ (fun h => hnc1 h.symm)
        have hnil : List.filter (fun em => em.sid == sid)
            ([{ sid := e.sid, time := e.time, payload := leaderboardQuery e.db e.sid }] :
              List Emission) = [] := by
          simp [hes]
        refine ⟨?_, ?_, ?_, ?_, ?_, ?_⟩
        · simp only [tmGetNum, hT1]
          exact le_trans h1 hclock
        · intro em hem
          simp only [emissionsFor, List.filter_append, hnil, List.append_nil] at hem
          simp only [tmGetNum, hT1]
          exact h2 em hem
        · simp only [emissionsFor, List.filter_append, hnil, List.append_nil]
          exact h3
        · simp only [tmGetNum, hT1, hT2]
          exact h4
        · intro x hx
          exact le_of_lt (hlt x hx)
        · exact tmSet_keys_nodup _ _ _ h6
      · rw [if_neg hbr]
        by_cases hsch : (tmGet s.timers (schedKey e.sid)).isSome = true
        · rw [if_pos (by simp [hsch])]
          refine ⟨le_trans h1 hclock, h2, h3, h4, ?_, h6⟩
          intro x hx
          exact le_of_lt (hlt x hx)
        · rw [if_neg hsch]
          have hT1 : tmGet (tmSet s.timers (schedKey e.sid) TVal.flag) sid =
              tmGet s.timers sid := tmGet_set_ne _ _ _ _ hnc2
          have hT2 : tmGet (tmSet s.timers (schedKey e.sid) TVal.flag) (schedKey sid) =
              tmGet s.timers (schedKey sid) :=
            tmGet_set_ne _ _ _ _ (fun h => hes (schedKey_inj h).symm)
          have hAg : (s.agenda ++
              [(e.sid, e.time + (THROTTLE_INTERVAL - (e.time - tmGetNum s.timers e.sid)))]).filter
              (fun x => x.1 == sid) = s.agenda.filter (fun x => x.1 == sid) := by
            rw [List.filter_append]
            simp [hes]
          refine ⟨?_, ?_, ?_, ?_, ?_, ?_⟩
          · simp only [tmGetNum, hT1]
            exact le_trans h1 hclock
          · intro em hem
            simp only [tmGetNum, hT1]
            exact h2 em (by simpa [emissionsFor] using hem)
          · exact h3
          · have hnum : tmGetNum (tmSet s.timers (schedKey e.sid) TVal.flag) sid =
                tmGetNum s.timers sid := by
              simp only [tmGetNum, hT1]
            rw [hT2, hnum]
            unfold agendaFor
            rw [hAg]
            unfold agendaFor at h4
            exact h4
          · intro x hx
            rw [List.mem_append] at hx
            rcases hx with hx | hx
            · exact le_of_lt (hlt x hx)
            · simp at hx
              rw [hx]
              simp
          · exact tmSet_keys_nodup _ _ _ h6

/-- Helper: a pending callback that is gone by the end of the run must have
fired, emitting at its due instant. -/
theorem pending_fires (sid : String) (d : Nat) :
    ∀ (evs : List TEvent) (s : TState), tValid s evs = true → (sid, d) ∈ s.agenda →
      agendaFor sid (tRun s evs) = [] →
      ∃ em ∈ (tRun s evs).emissions, em.sid = sid ∧ em.time = d := by
  intro evs
  induction evs with
  | nil =>
    intro s _ hmem hag
    exfalso
    have hin : (sid, d) ∈ agendaFor sid s := by
      simp [agendaFor, List.mem_filter, hmem]
    rw [show tRun s [] = s from rfl] at hag
    rw [hag] at hin
    simp at hin
  | cons e es ih =>
    intro s hv hmem hag
    simp only [tValid, Bool.and_eq_true] at hv
    obtain ⟨hve, hvs⟩ := hv
    simp only [tRun] at hag ⊢
    by_cases hcase : e.isFire = true ∧ e.sid = sid ∧ e.time = d
    · obtain ⟨hf, hsid, ht⟩ := hcase
      have hememit : ({ sid := e.sid, time := e.time, payload := leaderboardQuery e.db e.sid } :
          Emission) ∈ (tStep s e).emissions := by
        unfold tStep
        rw [if_pos hf]
        simp
      exact ⟨_, tRun_emissions_mono es (tStep s e) _ hememit, hsid, ht⟩
    · have hmem2 : (sid, d) ∈ (tStep s e).agenda := by
        unfold tStep
        by_cases hf : e.isFire = true
        · rw [if_pos hf]
          apply mem_eraseP_of_not _ _ _ hmem
          by_contra hp
          rw [Bool.not_eq_false, Bool.and_eq_true] at hp
          have hp1 : sid = e.sid := by simpa using hp.1
          have hp2 : d = e.time := by simpa using hp.2
          exact hcase ⟨hf, hp1.symm, hp2.symm⟩
        · rw [if_neg hf]
          by_cases h1 : THROTTLE_INTERVAL ≤ e.time - tmGetNum s.timers e.sid
          · rw [if_pos h1]
            exact hmem
          · rw [if_neg h1]
            by_cases h2 : (tmGet s.timers (schedKey e.sid)).isSome = true
            · rw [if_pos (by simp [h2])]
              exact hmem
            · rw [if_neg h2]
              exact List.mem_append_left _ hmem
      exact ih (tStep s e) hvs hmem2 hag

/-- Helper: pairwise spacing of a session's emissions over a valid
collision-free run. -/
theorem tRun_pairwise (sid : String) :
    ∀ (evs : List TEvent) (s : TState), tValid s evs = true →
      (∀ e ∈ evs, e.sid = sid ∨ (¬ e.sid = schedKey sid ∧ ¬ sid = schedKey e.sid)) →
      TInv sid s →
      List.Pairwise (fun a b => a.time + THROTTLE_INTERVAL ≤ b.time)
        (emissionsFor sid (tRun s evs)) := by
  intro evs
  induction evs with
  | nil =>
    intro s _ _ hinv
    exact hinv.2.2.1
  | cons e es ih =>
    intro s hv hnc hinv
    simp only [tValid, Bool.and_eq_true] at hv
    simp only [tRun]
    exact ih (tStep s e) hv.2 (fun x hx => hnc x (List.mem_cons_of_mem e hx))
      (TInv_step sid s e hv.1 (hnc e (List.mem_cons_self e es)) hinv)

/-- Helper: every trigger of a session is answered, once nothing is pending
at the end of the run. -/
theorem tRun_reflects (sid : String) :
    ∀ (evs : List TEvent) (s : TState), tValid s evs = true →
      (∀ e ∈ evs, e.sid = sid ∨ (¬ e.sid = schedKey sid ∧ ¬ sid = schedKey e.sid)) →
      TInv sid s →
      agendaFor sid (tRun s evs) = [] →
      ∀ e ∈ evs, e.isFire = false → e.sid = sid →
        ∃ em ∈ (tRun s evs).emissions, em.sid = sid ∧ e.time ≤ em.time := by
  intro evs
  induction evs with
  | nil =>
    intro s _ _ _ _ e he
    simp at he
  | cons e0 es ih =>
    intro s hv hnc hinv hag e he hef hes
    simp only [tValid, Bool.and_eq_true] at hv
    obtain ⟨hve, hvs⟩ := hv
    simp only [tRun] at hag ⊢
    rcases List.mem_cons.mp he with he0 | hetail
    · subst he0
      subst hes
      unfold validEvent at hve
      rw [Bool.and_eq_true] at hve
      obtain ⟨hclock, hve2⟩ := hve
      rw [if_neg (by simp [hef])] at hve2
      have hlt : ∀ x ∈ s.agenda, e.time < x.2 := by
        intro x hx
        have := List.all_eq_true.mp hve2 x hx
        simpa using this
      by_cases hbr : THROTTLE_INTERVAL ≤ e.time - tmGetNum s.timers e.sid
      · have hememit : (⟨e.sid, e.time, leaderboardQuery e.db e.sid⟩ : Emission) ∈
            (tStep s e).emissions := by
          unfold tStep
          rw [if_neg (by simp [hef]), if_pos hbr]
          simp
        exact ⟨_, tRun_emissions_mono es (tStep s e) _ hememit, rfl, Nat.le_refl _⟩
      · by_cases hsch : (tmGet s.timers (schedKey e.sid)).isSome = true
        · have h4 := hinv.2.2.2.1
          rw [if_pos (by simp [hsch])] at h4
          have hin : (e.sid, tmGetNum s.timers e.sid + THROTTLE_INTERVAL) ∈ s.agenda := by
            have hx : (e.sid, tmGetNum s.timers e.sid + THROTTLE_INTERVAL) ∈
                agendaFor e.sid s := by
              rw [h4]
              simp
            simpa [agendaFor, List.mem_filter] using hx
          have hin2 : (e.sid, tmGetNum s.timers e.sid + THROTTLE_INTERVAL) ∈
              (tStep s e).agenda := by
            unfold tStep
            rw [if_neg (by simp [hef]), if_neg hbr, if_pos (by simp [hsch])]
            exact hin
          obtain ⟨em, hm, hsid, htime⟩ :=
            pending_fires e.sid (tmGetNum s.timers e.sid + THROTTLE_INTERVAL) es
              (tStep s e) hvs hin2 hag
          have hstrict := hlt _ hin
          exact ⟨em, hm, hsid, by omega⟩
        · have hin2 : (e.sid, e.time + (THROTTLE_INTERVAL -
              (e.time - tmGetNum s.timers e.sid))) ∈ (tStep s e).agenda := by
            unfold tStep
            rw [if_neg (by simp [hef]), if_neg hbr, if_neg hsch]
            exact List.mem_append_right _ (by simp)
          obtain ⟨em, hm, hsid, htime⟩ :=
            pending_fires e.sid
              (e.time + (THROTTLE_INTERVAL - (e.time - tmGetNum s.timers e.sid))) es
              (tStep s e) hvs hin2 hag
          exact ⟨em, hm, hsid, by omega⟩
    · exact ih (tStep s e0) hvs (fun x hx => hnc x (List.mem_cons_of_mem e0 hx))
        (TInv_step sid s e0 hve (hnc e0 (List.mem_cons_self e0 es)) hinv) hag
        e hetail hef hes

/-- Helper: every emission of a run stems from an event of the run, at that
event's instant, with the leaderboard queried from the store contents
carried by that event. -/
theorem tRun_provenance :
    ∀ (evs : List TEvent) (s : TState) (em : Emission), em ∈ (tRun s evs).emissions →
      em ∈ s.emissions ∨ ∃ e ∈ evs, e.sid = em.sid ∧ e.time = em.time ∧
        em.payload = leaderboardQuery e.db em.sid := by
  intro evs
  induction evs with
  | nil =>
    intro s em h
    exact Or.inl h
  | cons e es ih =>
    intro s em h
    simp only [tRun] at h
    rcases ih (tStep s e) em h with hbase | ⟨e2, he2, hrest⟩
    · unfold tStep at hbase
      by_cases hf : e.isFire = true
      · rw [if_pos hf] at hbase
        have hb2 : em ∈ s.emissions ++
            [(⟨e.sid, e.time, leaderboardQuery e.db e.sid⟩ : Emission)] := hbase
        rw [List.mem_append] at hb2
        rcases hb2 with hb | hb
        · exact Or.inl hb
        · simp at hb
          subst hb
          exact Or.inr ⟨e, List.mem_cons_self e es, rfl, rfl, rfl⟩
      · rw [if_neg hf] at hbase
        by_cases h1 : THROTTLE_INTERVAL ≤ e.time - tmGetNum s.timers e.sid
        · rw [if_pos h1] at hbase
          have hb2 : em ∈ s.emissions ++
              [(⟨e.sid, e.time, leaderboardQuery e.db e.sid⟩ : Emission)] := hbase
          rw [List.mem_append] at hb2
          rcases hb2 with hb | hb
          · exact Or.inl hb
          · simp at hb
            subst hb
            exact Or.inr ⟨e, List.mem_cons_self e es, rfl, rfl, rfl⟩
        · rw [if_neg h1] at hbase
          by_cases h2 : (tmGet s.timers (schedKey e.sid)).isSome = true
          · rw [if_pos (by simp [h2])] at hbase
            exact Or.inl hbase
          · rw [if_neg h2] at hbase
            exact Or.inl hbase
    · exact Or.inr ⟨e2, List.mem_cons_of_mem e he2, hrest⟩

/-- Helper: the Boolean no-collision check, read as a proposition. -/
theorem noClash_spec (sid : String) (evs : List TEvent) (h : noClash sid evs = true) :
    ∀ e ∈ evs, e.sid = sid ∨ (¬ e.sid = schedKey sid ∧ ¬ sid = schedKey e.sid) := by
  intro e he
  unfold noClash at h
  have hb := List.all_eq_true.mp h e he
  simpa using hb

/-- Claim C5 (amended): for a session identifier that does not collide in
the shared timers map with any other session of the trace (no trace session
is named `sid + "_scheduled"` and `sid` is no other session's flag key),
over every valid schedule from a fresh process: any two broadcasts of the
session are at least `THROTTLE_INTERVAL` apart; once no callback is left
pending, every trigger of the session has been answered by a broadcast not
earlier than it; and every broadcast carries the leaderboard queried from
the store contents at its emitting instant (a deferred callback re-reads
current state, never a snapshot).  Without the no-collision hypothesis the
reflection guarantee fails — see the key-collision counterexample. -/
theorem throttler_guarantees (sid : String) (evs : List TEvent)
    (hv : tValid tInit evs = true) (hnc : noClash sid evs = true) :
    List.Pairwise (fun a b => a.time + THROTTLE_INTERVAL ≤ b.time)
      (emissionsFor sid (tRun tInit evs)) ∧
    (agendaFor sid (tRun tInit evs) = [] →
      ∀ e ∈ evs, e.isFire = false → e.sid = sid →
        ∃ em ∈ (tRun tInit evs).emissions, em.sid = sid ∧ e.time ≤ em.time) ∧
    (∀ em ∈ (tRun tInit evs).emissions, ∃ e ∈ evs, e.sid = em.sid ∧ e.time = em.time ∧
      em.payload = leaderboardQuery e.db em.sid) := by
  refine ⟨tRun_pairwise sid evs tInit hv (noClash_spec sid evs hnc) (TInv_init sid),
    ?_, ?_⟩
  · intro hag e he hef hes
    exact tRun_reflects sid evs tInit hv (noClash_spec sid evs hnc) (TInv_init sid)
      hag e he hef hes
  · intro em hem
    rcases tRun_provenance evs tInit em hem with h | h
    · simp [tInit] at h
    · exact h

/-- Witness for the C5 theorem on the concrete trace `wTrace`: an immediate
emission at 6000, a scheduled callback created at 6001, and its firing at
11000. -/
theorem throttler_guarantees_witness :
  tValid tInit wTrace = true ∧ noClash ("a") wTrace = true ∧
  (List.Pairwise (fun a b => a.time + THROTTLE_INTERVAL ≤ b.time)
      (emissionsFor ("a") (tRun tInit wTrace)) ∧
   (agendaFor ("a") (tRun tInit wTrace) = [] →
     ∀ e ∈ wTrace, e.isFire = false → e.sid = "a" →
       ∃ em ∈ (tRun tInit wTrace).emissions, em.sid = "a" ∧ e.time ≤ em.time) ∧
   (∀ em ∈ (tRun tInit wTrace).emissions, ∃ e ∈ wTrace, e.sid = em.sid ∧ e.time = em.time ∧
     em.payload = leaderboardQuery e.db em.sid)) :=
  ⟨by decide, by decide, throttler_guarantees ("a") wTrace (by decide) (by decide)⟩

end NYKM
